import Mathlib

/-!
Verification development for the agent-runtime core of the wealth-navigator
backend (`backend/app/agents`, `backend/app/nlp`): the tool registry and its
dispatch (`agents/tools/__init__.py`), the bounded tool-calling loop
(`agents/base_agent.py`), the orchestrator routing (`agents/orchestrator.py`),
the NLP fan-out (`nlp/__init__.py`) and the memory manager
(`agents/memory.py`).

Python values that flow through the code are shallowly embedded:

* JSON values (tool arguments, tool results) become the inductive `JVal`:
  strings (with the quote/backslash escapes), ints, floats as decimal
  literals, booleans, null, and nested objects and arrays; `json.dumps`
  becomes `json_dumps` and `json.loads` (applied by `execute_tool` to the
  gateway-supplied argument string) becomes `json_loads`.  Keys are kept
  in insertion order like Python dicts.
* `float` confidences and temperatures become `ℚ`; none of the verified
  code paths perform arithmetic on them beyond order comparisons.
* Raised exceptions become `Except String`, the payload being `str(e)`.
* The completion gateway, the database session and the per-tool business
  callables are external collaborators and enter as function parameters.
-/

/-- Python dict lookup on an association list (first binding wins, like the
keys of a dict built in insertion order). -/
def lookupKV (l : List (String × α)) (k : String) : Option α :=
  (l.find? (fun p => p.1 == k)).map (·.2)

/-- Python `{**a, **b}`: the keys of `a` in order, values overridden by `b`
on collision, followed by the keys of `b` not present in `a`. -/
def dictMerge (a b : List (String × α)) : List (String × α) :=
  a.map (fun p => (p.1, (lookupKV b p.1).getD p.2)) ++
    b.filter (fun p => (lookupKV a p.1).isNone)

/-- JSON values, the shallow embedding of the Python values handed to
`json.dumps` / produced by `json.loads`.  `int` embeds a Python int;
`num` embeds a Python float by its decimal literal (sign, integer part,
fraction digits), the shape `repr`/`json.dumps` prints for the magnitudes
the tool layer uses -- IEEE bit-level behaviour, exponent notation and
NaN/Infinity are outside the model. -/
inductive JVal where
  | str (s : String)
  | int (n : Int)
  | num (neg : Bool) (ip : Nat) (frac : List Nat)
  | bool (b : Bool)
  | null
  | obj (fields : List (String × JVal))
  | arr (elems : List JVal)

/-- Decimal digit to its character. Only meaningful for `d < 10`. -/
def digitToChar (d : Nat) : Char :=
  match d with
  | 0 => '0' | 1 => '1' | 2 => '2' | 3 => '3' | 4 => '4'
  | 5 => '5' | 6 => '6' | 7 => '7' | 8 => '8' | _ => '9'

/-- Character to decimal digit, if it is one. -/
def charToDigit (c : Char) : Option Nat :=
  if c = '0' then some 0
  else if c = '1' then some 1
  else if c = '2' then some 2
  else if c = '3' then some 3
  else if c = '4' then some 4
  else if c = '5' then some 5
  else if c = '6' then some 6
  else if c = '7' then some 7
  else if c = '8' then some 8
  else if c = '9' then some 9
  else none

/-- Decimal rendering of a natural number, as `json.dumps` prints it. -/
def natChars (n : Nat) : List Char :=
  match n with
  | 0 => ['0']
  | m + 1 => ((Nat.digits 10 (m + 1)).map digitToChar).reverse

/-- Decimal rendering of an integer, as `json.dumps` prints it. -/
def intChars (n : Int) : List Char :=
  if n < 0 then '-' :: natChars n.natAbs else natChars n.toNat

/-- The character sequence of a literal keyword such as `true`. -/
def litChars (s : String) : List Char := s.data

/-- JSON string escaping (`json.dumps` escapes the quote and the backslash;
control characters and non-ASCII escapes are outside the value domain the
tool layer uses and are not modelled). -/
def escapeChars : List Char → List Char
  | [] => []
  | c :: cs => (if c = '"' ∨ c = '\\' then ['\\', c] else [c]) ++ escapeChars cs

mutual

/-- Characters printed by `json.dumps` for a value (default separators,
so `", "` between items and `": "` after keys). -/
def JVal.render : JVal → List Char
  | .str s => '"' :: (escapeChars s.data ++ ['"'])
  | .int n => intChars n
  | .num neg ip frac =>
      (if neg then ['-'] else []) ++ (natChars ip ++ '.' :: frac.map digitToChar)
  | .bool true => litChars "true"
  | .bool false => litChars "false"
  | .null => litChars "null"
  | .obj fs => '{' :: (renderFields fs ++ ['}'])
  | .arr es => '[' :: (renderElems es ++ [']'])

/-- Fields of an object, `", "`-separated. -/
def renderFields : List (String × JVal) → List Char
  | [] => []
  | [f] => renderField f
  | f :: fs => renderField f ++ ',' :: ' ' :: renderFields fs

/-- One `"key": value` field. -/
def renderField : String × JVal → List Char
  | (k, v) => '"' :: (escapeChars k.data ++ '"' :: ':' :: ' ' :: JVal.render v)

/-- Elements of an array, `", "`-separated. -/
def renderElems : List JVal → List Char
  | [] => []
  | [e] => JVal.render e
  | e :: es => JVal.render e ++ ',' :: ' ' :: renderElems es

end

/-- The string `json.dumps` produces for a value. -/
def json_dumps (v : JVal) : String := String.mk v.render

/-- Body of a JSON string after the opening quote: consume characters up to
the closing quote, undoing the `\"` and `\\` escapes. -/
def parseStringBody : List Char → Option (List Char × List Char)
  | [] => none
  | c :: rest =>
    if c = '"' then some ([], rest)
    else if c = '\\' then
      match rest with
      | c2 :: rest2 => (parseStringBody rest2).map (fun p => (c2 :: p.1, p.2))
      | [] => none
    else (parseStringBody rest).map (fun p => (c :: p.1, p.2))

/-- Consume a maximal run of decimal digits, most significant first,
returning the accumulated value.  `acc` is the value of the digits already
consumed. -/
def parseDigitsAcc (acc : Nat) : List Char → Nat × List Char
  | [] => (acc, [])
  | c :: cs =>
    match charToDigit c with
    | some d => parseDigitsAcc (acc * 10 + d) cs
    | none => (acc, c :: cs)

/-- Parse a nonempty run of decimal digits. -/
def parseNat : List Char → Option (Nat × List Char)
  | [] => none
  | c :: cs =>
    match charToDigit c with
    | some d => some (parseDigitsAcc d cs)
    | none => none

/-- Consume a maximal run of decimal digits, keeping the digit list
(fraction digits, where leading zeros are significant). -/
def parseDigitList : List Char → List Nat × List Char
  | [] => ([], [])
  | c :: cs =>
    match charToDigit c with
    | some d =>
      let p := parseDigitList cs
      (d :: p.1, p.2)
    | none => ([], c :: cs)

/-- Parse an unsigned JSON number: digits, optionally followed by a point
and a nonempty run of fraction digits; an integer value or an integer part
paired with the fraction digit list. -/
def parseUnsignedNum (cs : List Char) :
    Option ((Nat ⊕ Nat × List Nat) × List Char) :=
  match parseNat cs with
  | none => none
  | some p =>
    if p.2.head? = some '.' then
      let q := parseDigitList p.2.tail
      if q.1.isEmpty then none else some (.inr (p.1, q.1), q.2)
    else some (.inl p.1, p.2)

/-- Parse a JSON number with optional sign into an `int` or a `num`. -/
def parseNumber (cs : List Char) : Option (JVal × List Char) :=
  if cs.head? = some '-' then
    (parseUnsignedNum cs.tail).map fun p =>
      (match p.1 with
       | .inl ip => JVal.int (-(ip : Int))
       | .inr q => JVal.num true q.1 q.2, p.2)
  else
    (parseUnsignedNum cs).map fun p =>
      (match p.1 with
       | .inl ip => JVal.int ((ip : Nat) : Int)
       | .inr q => JVal.num false q.1 q.2, p.2)

/- Recursive descent for one JSON value (canonical `json.dumps` layout).
The fuel bounds the number of nested parser calls. -/

mutual

/-- Parse one JSON value: a string, a (possibly empty) object or array, a
literal keyword, or a number. -/
def parseValF : Nat → List Char → Option (JVal × List Char)
  | 0, _ => none
  | fuel + 1, cs =>
    if cs.head? = some '"' then
      (parseStringBody cs.tail).map fun p => (JVal.str (String.mk p.1), p.2)
    else if cs.take 2 = ['{', '}'] then some (.obj [], cs.drop 2)
    else if cs.head? = some '{' then
      (parseFieldsF fuel cs.tail).map fun p => (JVal.obj p.1, p.2)
    else if cs.take 2 = ['[', ']'] then some (.arr [], cs.drop 2)
    else if cs.head? = some '[' then
      (parseElemsF fuel cs.tail).map fun p => (JVal.arr p.1, p.2)
    else if cs.take 4 = litChars "true" then some (.bool true, cs.drop 4)
    else if cs.take 5 = litChars "false" then some (.bool false, cs.drop 5)
    else if cs.take 4 = litChars "null" then some (.null, cs.drop 4)
    else parseNumber cs

/-- Parse the fields of a nonempty object, positioned after the `{`, up to
and including the closing `}`. -/
def parseFieldsF : Nat → List Char → Option (List (String × JVal) × List Char)
  | 0, _ => none
  | fuel + 1, cs =>
    match cs with
    | '"' :: rest =>
      (parseStringBody rest).bind fun kp =>
        match kp.2 with
        | ':' :: ' ' :: r2 =>
          (parseValF fuel r2).bind fun vp =>
            match vp.2 with
            | '}' :: r4 => some ([(String.mk kp.1, vp.1)], r4)
            | ',' :: ' ' :: r4 =>
              (parseFieldsF fuel r4).map fun fp =>
                ((String.mk kp.1, vp.1) :: fp.1, fp.2)
            | _ => none
        | _ => none
    | _ => none

/-- Parse the elements of a nonempty array, up to and including the
closing `]`. -/
def parseElemsF : Nat → List Char → Option (List JVal × List Char)
  | 0, _ => none
  | fuel + 1, cs =>
    (parseValF fuel cs).bind fun vp =>
      match vp.2 with
      | ']' :: r => some ([vp.1], r)
      | ',' :: ' ' :: r =>
        (parseElemsF fuel r).map fun ep => (vp.1 :: ep.1, ep.2)
      | _ => none

end

/-- Parse a JSON object from the start of the input. -/
def parseObjTop (cs : List Char) : Option (List (String × JVal) × List Char) :=
  if cs.take 2 = ['{', '}'] then some ([], cs.drop 2)
  else if cs.head? = some '{' then parseFieldsF cs.tail.length cs.tail
  else none

/-- Model of `json.loads` as `execute_tool` uses it: the argument string must
be one JSON object covering the whole input; anything else raises (returns
`none` here). -/
def json_loads (s : String) : Option (List (String × JVal)) :=
  match parseObjTop s.data with
  | some (m, []) => some m
  | _ => none

mutual

/-- Representation invariant of the embedding: the fraction digit list of
every `num` literal is a nonempty sequence of decimal digits (as `repr`
always prints at least one), recursively through objects and arrays.
Every Python value has a well-formed representation; this constrains the
encoding, not the claim's value domain. -/
def jvalWF : JVal → Bool
  | .str _ => true
  | .int _ => true
  | .num _ _ frac => (!frac.isEmpty) && frac.all (fun d => decide (d < 10))
  | .bool _ => true
  | .null => true
  | .obj fs => fieldsWF fs
  | .arr es => elemsWF es

/-- Well-formedness of an object's field list. -/
def fieldsWF : List (String × JVal) → Bool
  | [] => true
  | f :: fs => jvalWF f.2 && fieldsWF fs

/-- Well-formedness of an array's element list. -/
def elemsWF : List JVal → Bool
  | [] => true
  | e :: es => jvalWF e && elemsWF es

end

mutual

/-- Fuel sufficient for `parseValF` on the rendering of a value. -/
def jsize : JVal → Nat
  | .obj fs => 1 + fsize fs
  | .arr es => 1 + esize es
  | _ => 1

/-- Fuel sufficient for `parseFieldsF` on a rendered field list. -/
def fsize : List (String × JVal) → Nat
  | [] => 0
  | f :: fs => 1 + jsize f.2 + fsize fs

/-- Fuel sufficient for `parseElemsF` on a rendered element list. -/
def esize : List JVal → Nat
  | [] => 0
  | e :: es => 1 + jsize e + esize es

end

/-- The input does not begin with a decimal digit. -/
def noDigitStart : List Char → Prop
  | [] => True
  | c :: _ => charToDigit c = none

/-- What may follow a rendered number in the object/array grammar: not a
digit and not a decimal point (a separator, a closer, or the end of the
input). -/
def numBoundary : List Char → Prop
  | [] => True
  | c :: _ => charToDigit c = none ∧ c ≠ '.' 

/-- Most-significant-first decimal digits of a natural number. -/
def msbDigits (n : Nat) : List Nat :=
  match n with
  | 0 => [0]
  | m + 1 => (Nat.digits 10 (m + 1)).reverse

/-- Value bound to a keyword argument of a tool callable: a JSON value
parsed from the gateway-supplied argument string, or an injected
infrastructure binding such as the database session (`db=db`), identified
here by an opaque handle. -/
inductive ArgVal where
  | json (v : JVal)
  | db (handle : Nat)

/-- One entry of the global `_tool_registry`: the bound callable (which may
raise, embedded as `Except`) plus the registered metadata. -/
structure ToolEntry where
  fn : List (String × ArgVal) → Except String JVal
  name : String
  description : String
  parameters : JVal

/-- The global tool registry `_tool_registry`, an insertion-ordered dict. -/
def ToolRegistry := List (String × ToolEntry)

/-- OpenAI function-calling tool definition, as built by
`get_tool_definitions`. -/
structure ToolDef where
  name : String
  description : String
  parameters : JVal

/-- Embeds `get_tool_definitions`: the definitions for the requested names
in request order, silently dropping names that are not registered. -/
def get_tool_definitions (reg : ToolRegistry) (tool_names : List String) :
    List ToolDef :=
  tool_names.filterMap fun n =>
    (lookupKV reg n).map fun t => ⟨t.name, t.description, t.parameters⟩

/-- Embeds `execute_tool`: an unregistered name raises
`ValueError(f"Unknown tool: ...")`; a string argument payload is parsed by
`json.loads` (a malformed payload raises, message abstracted); the parsed
map is merged with the keyword bindings as `{**arguments, **kwargs}` --
keyword bindings win on key collision -- and the bound callable is invoked
on the merged map. -/
def execute_tool (reg : ToolRegistry) (name : String)
    (arguments : String ⊕ List (String × JVal))
    (kwargs : List (String × ArgVal)) : Except String JVal :=
  match lookupKV reg name with
  | none => Except.error ("Unknown tool: " ++ name)
  | some t =>
    match (match arguments with
           | .inl s => json_loads s
           | .inr m => some m) with
    | none => Except.error "Invalid JSON in tool arguments"
    | some m => t.fn (dictMerge (m.map fun p => (p.1, ArgVal.json p.2)) kwargs)

/-- One proposed tool invocation of a completion response
(`tool_call.id`, `tool_call.function.name`, `tool_call.function.arguments`,
the last being a JSON string). -/
structure ToolCall where
  id : String
  name : String
  arguments : String
deriving DecidableEq

/-- A chat message dict as passed to the completion API. -/
structure ChatMsg where
  role : String
  content : Option String := none
  tool_call_id : Option String := none
  tool_calls : List ToolCall := []
deriving DecidableEq

/-- A completion response (`response.choices[0].message`): proposed tool
invocations and/or text content. -/
structure GwResp where
  tool_calls : List ToolCall := []
  content : Option String := none
deriving DecidableEq

/-- The buffered completion gateway `chat_completion(messages, model,
tools, temperature)`, an external collaborator. -/
def Gateway := List ChatMsg → String → Option (List ToolDef) → ℚ → GwResp

/-- The token-streaming completion channel used by the final round of
`run_stream` (`stream=True`): the incremental content deltas. -/
def StreamGateway := List ChatMsg → String → ℚ → List String

/-- The slots of the free-form `context.metadata` dict that the verified
code reads or writes. -/
structure IntentDict where
  name : Option String := none
  confidence : Option ℚ := none
deriving DecidableEq

/-- The `nlp_result` dict as the orchestrator consumes it
(`nlp_result["intent"]`, `nlp_result["entities"]`). -/
structure NlpDict where
  intent : Option IntentDict := none
  entities : Option JVal := none

/-- Metadata bag of an `AgentContext`, restricted to the keys the verified
code touches (`forced_agent`, `nlp_result`, `intent`, `entities`). -/
structure MetaDict where
  forced_agent : Option String := none
  nlp_result : Option NlpDict := none
  intent : Option String := none
  entities : Option JVal := none

/-- Embeds the `AgentContext` dataclass. -/
structure AgentContext where
  user_id : String
  advisor_id : String
  conversation_id : Option String := none
  session_messages : List ChatMsg := []
  metadata : MetaDict := {}

/-- The metadata dict of an `AgentResponse` as `run` populates it
(`forced_completion` is only present -- true -- on the forced path). -/
structure RunMeta where
  model : String
  rounds : Nat
  forced_completion : Bool := false
deriving DecidableEq

/-- Embeds the `AgentResponse` dataclass. -/
structure AgentResponse where
  content : String
  agent_name : String
  tool_calls_made : List String := []
  metadata : RunMeta
deriving DecidableEq

/-- Per-role configuration of a `BaseAgent` subclass. -/
structure AgentCfg where
  name : String := "base_agent"
  description : String := "Base agent"
  system_prompt : String := "You are a helpful assistant."
  tool_names : List String := []
  model : String := "gpt-4o"
  temperature : ℚ := 0.3
  max_tool_rounds : Nat := 5

/-- Embeds `BaseAgent._build_messages`: system prompt, then the session
window, then the new user message. -/
def build_messages (ag : AgentCfg) (message : String) (ctx : AgentContext) :
    List ChatMsg :=
  ({ role := "system", content := some ag.system_prompt } : ChatMsg)
    :: (ctx.session_messages ++ [{ role := "user", content := some message }])

/-- The serialized payload the loop appends for one proposed invocation:
the raw string if the tool returned a string, otherwise
`json.dumps(result, default=str)`; and `json.dumps({"error": str(e)})`
when dispatch raised. -/
def tool_result_content (reg : ToolRegistry) (db : Nat) (tc : ToolCall) : String :=
  match execute_tool reg tc.name (.inl tc.arguments) [("db", ArgVal.db db)] with
  | .ok (JVal.str s) => s
  | .ok v => json_dumps v
  | .error e => json_dumps (.obj [("error", .str e)])

/-- The tool-role message appended for one proposed invocation. -/
def tool_result_msg (reg : ToolRegistry) (db : Nat) (tc : ToolCall) : ChatMsg :=
  { role := "tool", tool_call_id := some tc.id,
    content := some (tool_result_content reg db tc) }

/-- The `choice.message.model_dump()` appended when tool calls are
proposed. -/
def assistant_dump (resp : GwResp) : ChatMsg :=
  { role := "assistant", content := resp.content, tool_calls := resp.tool_calls }

/-- One observed `chat_completion` invocation: transcript sent, tool
catalog offered, response received. -/
structure GwCall where
  messages : List ChatMsg
  tools : Option (List ToolDef)
  resp : GwResp

/-- Result of `BaseAgent.run` together with the trace of gateway calls the
loop made, in order. -/
structure RunResult where
  resp : AgentResponse
  calls : List GwCall

/-- The body of `BaseAgent.run`: `for round_num in
range(self.max_tool_rounds)`, by remaining rounds; the fuel-zero case is
the forced tool-less completion after the loop. -/
def runLoop (gw : Gateway) (reg : ToolRegistry) (db : Nat) (ag : AgentCfg)
    (tools : Option (List ToolDef)) :
    Nat → Nat → List ChatMsg → List String → AgentResponse × List GwCall
  | 0, _, msgs, made =>
    let resp := gw msgs ag.model none ag.temperature
    ({ content := resp.content.getD "", agent_name := ag.name,
       tool_calls_made := made,
       metadata := { model := ag.model, rounds := ag.max_tool_rounds,
                     forced_completion := true } },
     [⟨msgs, none, resp⟩])
  | fuel + 1, round_num, msgs, made =>
    let resp := gw msgs ag.model tools ag.temperature
    if resp.tool_calls.isEmpty then
      ({ content := resp.content.getD "", agent_name := ag.name,
         tool_calls_made := made,
         metadata := { model := ag.model, rounds := round_num + 1 } },
       [⟨msgs, tools, resp⟩])
    else
      let next := runLoop gw reg db ag tools fuel (round_num + 1)
        (msgs ++ assistant_dump resp :: resp.tool_calls.map (tool_result_msg reg db))
        (made ++ resp.tool_calls.map (·.name))
      (next.1, ⟨msgs, tools, resp⟩ :: next.2)

/-- Embeds `BaseAgent.run`: the bounded tool-calling loop, also exposing
the trace of gateway calls. -/
def BaseAgent.run (gw : Gateway) (reg : ToolRegistry) (db : Nat)
    (ag : AgentCfg) (message : String) (ctx : AgentContext) : RunResult :=
  let tools := if ag.tool_names.isEmpty then none
               else some (get_tool_definitions reg ag.tool_names)
  let out := runLoop gw reg db ag tools ag.max_tool_rounds 0
    (build_messages ag message ctx) []
  ⟨out.1, out.2⟩

/-- The agent registry populated by `register_agent` (name to agent). -/
def AgentRegistry := List (String × AgentCfg)

/-- Embeds `BaseAgent.delegate`: a missing target agent yields a literal
error string; otherwise the other agent runs and only its content is
returned. -/
def BaseAgent.delegate (gw : Gateway) (reg : ToolRegistry) (db : Nat)
    (agents : AgentRegistry) (agent_name sub_query : String)
    (ctx : AgentContext) : String :=
  match lookupKV agents agent_name with
  | none => "Error: Agent \x27" ++ agent_name ++ "\x27 not found"
  | some other => (BaseAgent.run gw reg db other sub_query ctx).resp.content

/-- Typed events yielded by the streaming paths. -/
inductive StreamEvent where
  | agent_status (status agent message : String)
  | stream_token (token : String)
  | stream_end (content agent : String) (tool_calls : List String)
  | error (message : String)
deriving DecidableEq

/-- Python truthiness of the `tools` list (`None` and `[]` are falsy). -/
def toolsTruthy : Option (List ToolDef) → Bool
  | none => false
  | some l => ¬ l.isEmpty

/-- The body of `BaseAgent.run_stream`, by remaining rounds: non-final
rounds with a truthy tool list use the buffered gateway so proposed tool
calls can be parsed and dispatched (one agent-status event per tool);
text obtained that way is re-emitted per character; the final round, or
any round without tools, streams tokens (empty deltas dropped). -/
def runStreamLoop (gw : Gateway) (gws : StreamGateway) (reg : ToolRegistry)
    (db : Nat) (ag : AgentCfg) (tools : Option (List ToolDef)) :
    Nat → Nat → List ChatMsg → List String → List StreamEvent
  | 0, _, _, _ => []
  | fuel + 1, round_num, msgs, made =>
    if toolsTruthy tools ∧ round_num < ag.max_tool_rounds - 1 then
      let resp := gw msgs ag.model tools ag.temperature
      if resp.tool_calls.isEmpty then
        let content := resp.content.getD ""
        (content.data.map fun c => StreamEvent.stream_token (String.mk [c]))
          ++ [.stream_end content ag.name made]
      else
        (resp.tool_calls.map fun tc =>
          StreamEvent.agent_status "tool_call" ag.name ("Using " ++ tc.name ++ "..."))
          ++ runStreamLoop gw gws reg db ag tools fuel (round_num + 1)
            (msgs ++ assistant_dump resp :: resp.tool_calls.map (tool_result_msg reg db))
            (made ++ resp.tool_calls.map (·.name))
    else
      let toks := (gws msgs ag.model ag.temperature).filter fun t => ¬ t.isEmpty
      (toks.map .stream_token) ++ [.stream_end (String.join toks) ag.name made]

/-- Embeds `BaseAgent.run_stream`. -/
def BaseAgent.run_stream (gw : Gateway) (gws : StreamGateway)
    (reg : ToolRegistry) (db : Nat) (ag : AgentCfg) (message : String)
    (ctx : AgentContext) : List StreamEvent :=
  let tools := if ag.tool_names.isEmpty then none
               else some (get_tool_definitions reg ag.tool_names)
  runStreamLoop gw gws reg db ag tools ag.max_tool_rounds 0
    (build_messages ag message ctx) []

/-- The static `INTENT_AGENT_MAP` of the orchestrator, verbatim. -/
def INTENT_AGENT_MAP : List (String × String) := [
  ("portfolio_analysis", "portfolio_intelligence"),
  ("risk_assessment", "portfolio_intelligence"),
  ("rebalance_request", "portfolio_intelligence"),
  ("client_lookup", "advisor_assistant"),
  ("general_chat", "advisor_assistant"),
  ("meeting_prep", "meeting_intelligence"),
  ("compliance_check", "compliance_sentinel"),
  ("tax_optimization", "tax_optimizer"),
  ("funding_analysis", "funding_risk"),
  ("order_management", "advisor_assistant"),
  ("lead_management", "growth_engine"),
  ("campaign_creation", "growth_engine"),
  ("churn_prediction", "growth_engine"),
  ("report_generation", "report_analytics"),
  ("task_management", "task_workflow"),
  ("task_creation", "task_workflow"),
  ("analytics_query", "report_analytics"),
  ("communication_draft", "communications"),
  ("email_request", "communications"),
  ("goal_tracking", "goal_planning"),
  ("financial_planning", "goal_planning"),
  ("client_onboarding", "onboarding"),
  ("document_collection", "onboarding")]

/-- The orchestrator's `self.default_agent`. -/
def default_agent : String := "advisor_assistant"

/-- Embeds `Orchestrator.select_agent`:
`INTENT_AGENT_MAP.get(intent, self.default_agent)`. -/
def Orchestrator.select_agent (intent : String) : String :=
  (lookupKV INTENT_AGENT_MAP intent).getD default_agent

/-- Embeds the intent resolution at the top of `Orchestrator.process`
(repeated verbatim in the selection branch of `process_stream`): missing
classification pieces default to `general_chat` and confidence 0.0, and a
confidence below 0.4 coerces the intent to `general_chat`. -/
def Orchestrator.route_intent (nlp_result : Option NlpDict) : String :=
  match nlp_result with
  | none => "general_chat"
  | some d =>
    match d.intent with
    | none => "general_chat"
    | some i =>
      let intent := i.name.getD "general_chat"
      let confidence := i.confidence.getD 0
      if confidence < 0.4 then "general_chat" else intent

/-- The agent name `Orchestrator.process` resolves.  The context parameter
mirrors the source scope: the buffered entry point has the context in hand
but performs intent-based selection only, never reading a forced-agent
override from its metadata. -/
def Orchestrator.process_agent_name (_ctx : AgentContext)
    (nlp_result : Option NlpDict) : String :=
  Orchestrator.select_agent (Orchestrator.route_intent nlp_result)

/-- The agent name `Orchestrator.process_stream` resolves: a truthy
`forced_agent` metadata entry is used verbatim; otherwise intent-based
selection exactly as in `process`. -/
def Orchestrator.stream_agent_name (ctx : AgentContext)
    (nlp_result : Option NlpDict) : String :=
  match ctx.metadata.forced_agent with
  | some fa =>
    if fa = "" then Orchestrator.select_agent (Orchestrator.route_intent nlp_result)
    else fa
  | none => Orchestrator.select_agent (Orchestrator.route_intent nlp_result)

/-- The metadata enrichment both entry points perform when an NLP result is
supplied (`nlp_result`, resolved `intent`, and `entities` when present). -/
def Orchestrator.enrich_context (ctx : AgentContext)
    (nlp_result : Option NlpDict) (intent : String) : AgentContext :=
  match nlp_result with
  | none => ctx
  | some d =>
    { ctx with metadata :=
      { ctx.metadata with
        nlp_result := some d,
        intent := some intent,
        entities := if d.entities.isSome then d.entities
                    else ctx.metadata.entities } }

/-- Embeds the `OrchestratorResult` dataclass. -/
structure OrchestratorResult where
  primary_response : AgentResponse
  delegated_responses : List AgentResponse := []
  nlp_result : Option NlpDict := none

/-- Embeds `Orchestrator.process`: resolve the intent (low confidence
coerced), select the agent by intent, look it up (falling back to the
default agent; no registered default raises `RuntimeError`), enrich the
context metadata, run the chosen agent. -/
def Orchestrator.process (gw : Gateway) (reg : ToolRegistry) (db : Nat)
    (agents : AgentRegistry) (message : String) (ctx : AgentContext)
    (nlp_result : Option NlpDict) : Except String OrchestratorResult :=
  let intent := Orchestrator.route_intent nlp_result
  let agent_name := Orchestrator.select_agent intent
  match (lookupKV agents agent_name).orElse
      (fun _ => lookupKV agents default_agent) with
  | none => .error "No agents registered. Initialize agents first."
  | some ag =>
    let enriched := Orchestrator.enrich_context ctx nlp_result intent
    .ok { primary_response := (BaseAgent.run gw reg db ag message enriched).resp,
          delegated_responses := [],
          nlp_result := nlp_result }

/-- Embeds `Orchestrator.process_stream`: a truthy forced-agent override in
the context metadata short-circuits intent-based selection (and stands in
for the resolved intent); then a thinking status event followed by the
chosen agent's streamed events; no registered agent at all yields a single
error event. -/
def Orchestrator.process_stream (gw : Gateway) (gws : StreamGateway)
    (reg : ToolRegistry) (db : Nat) (agents : AgentRegistry)
    (message : String) (ctx : AgentContext) (nlp_result : Option NlpDict) :
    List StreamEvent :=
  let agent_name := Orchestrator.stream_agent_name ctx nlp_result
  let intent := match ctx.metadata.forced_agent with
    | some fa => if fa = "" then Orchestrator.route_intent nlp_result else fa
    | none => Orchestrator.route_intent nlp_result
  match (lookupKV agents agent_name).orElse
      (fun _ => lookupKV agents default_agent) with
  | none => [.error "No agents available"]
  | some ag =>
    let enriched := Orchestrator.enrich_context ctx nlp_result intent
    .agent_status "thinking" ag.name (ag.name ++ " is analyzing your request...")
      :: BaseAgent.run_stream gw gws reg db ag message enriched

/-- Embeds the `IntentResult` dataclass of `nlp/intent_classifier.py`. -/
structure IntentResult where
  name : String
  confidence : ℚ
  reasoning : String
deriving DecidableEq

/-- Embeds the `Entity` dataclass of `nlp/entity_extractor.py`. -/
structure Entity where
  type : String
  value : String
  original_text : String
deriving DecidableEq

/-- Embeds the `EntityResult` dataclass (defaults to no entities). -/
structure EntityResult where
  entities : List Entity := []
deriving DecidableEq

/-- Embeds the `SentimentResult` dataclass of `nlp/sentiment_analyzer.py`. -/
structure SentimentResult where
  score : ℚ
  classification : String
  emotions : List String
  urgency : String
deriving DecidableEq

/-- Embeds the `QueryResult` dataclass of `nlp/query_parser.py`. -/
structure QueryResult where
  table : Option String := none
  filters : List (String × JVal) := []
  sort_by : Option String := none
  sort_order : String := "desc"
  limit : Int := 20
  search_text : Option String := none

/-- Embeds the `NLPResult` dataclass. -/
structure NLPResult where
  intent : IntentResult
  entities : EntityResult
  sentiment : SentimentResult
  query : Option QueryResult := none

/-- Embeds `NLPPipeline.process` at the `asyncio.gather(...,
return_exceptions=True)` join: each argument is the outcome of one
sub-task (result, or raised exception).  A failed sub-task is replaced by
its neutral default; successful outcomes pass through untouched.  The
result is a total function of all four outcomes, mirroring that the gather
join observes every sub-task before the method returns. -/
def NLPPipeline.process (rIntent : Except String IntentResult)
    (rEntities : Except String EntityResult)
    (rSentiment : Except String SentimentResult)
    (include_query_parse : Bool)
    (rQuery : Except String QueryResult) : NLPResult :=
  { intent := match rIntent with
      | .ok v => v
      | .error _ =>
        { name := "general_chat", confidence := 0, reasoning := "Pipeline error" },
    entities := match rEntities with
      | .ok v => v
      | .error _ => {},
    sentiment := match rSentiment with
      | .ok v => v
      | .error _ =>
        { score := 0, classification := "neutral", emotions := [], urgency := "low" },
    query := if include_query_parse then
        match rQuery with
        | .ok v => some v
        | .error _ => none
      else none }

/-- A persisted `Message` row (fields the memory manager touches). -/
structure StoredMsg where
  conversation_id : Nat
  role : String
  content : String
  created_at : Nat
deriving DecidableEq

/-- A persisted `ConversationSummary` row (fields the memory manager
touches). -/
structure StoredSummary where
  conversation_id : Nat
  summary : String
  created_at : Nat
deriving DecidableEq

/-- The persistence collaborator: messages and summaries tables. -/
structure Store where
  messages : List StoredMsg
  summaries : List StoredSummary
deriving DecidableEq

/-- An OpenAI-format context entry as `get_conversation_context` returns
and as the summarizer prompt is shaped. -/
structure CtxEntry where
  role : String
  content : String
deriving DecidableEq

/-- The module constant `MAX_SHORT_TERM_MESSAGES`. -/
def MAX_SHORT_TERM_MESSAGES : Nat := 20

/-- SQL `ORDER BY created_at DESC` comparison on messages. -/
def msgDesc (a b : StoredMsg) : Prop := b.created_at ≤ a.created_at

/-- SQL `ORDER BY created_at` ascending comparison on messages. -/
def msgAsc (a b : StoredMsg) : Prop := a.created_at ≤ b.created_at

/-- SQL `ORDER BY created_at DESC` comparison on summaries. -/
def sumDesc (a b : StoredSummary) : Prop := b.created_at ≤ a.created_at

instance : DecidableRel msgDesc := fun a b => Nat.decLe b.created_at a.created_at

instance : IsTotal StoredMsg msgDesc :=
  ⟨fun a b => Nat.le_total b.created_at a.created_at⟩

instance : IsTrans StoredMsg msgDesc :=
  ⟨fun _ _ _ h1 h2 => Nat.le_trans h2 h1⟩

instance : DecidableRel msgAsc := fun a b => Nat.decLe a.created_at b.created_at

instance : IsTotal StoredMsg msgAsc :=
  ⟨fun a b => Nat.le_total a.created_at b.created_at⟩

instance : IsTrans StoredMsg msgAsc :=
  ⟨fun _ _ _ h1 h2 => Nat.le_trans h1 h2⟩

instance : DecidableRel sumDesc := fun a b => Nat.decLe b.created_at a.created_at

instance : IsTotal StoredSummary sumDesc :=
  ⟨fun a b => Nat.le_total b.created_at a.created_at⟩

instance : IsTrans StoredSummary sumDesc :=
  ⟨fun _ _ _ h1 h2 => Nat.le_trans h2 h1⟩

/-- The rows of the messages table for one conversation (`WHERE
conversation_id = ...`). -/
def convMessages (db : Store) (conversation_id : Nat) : List StoredMsg :=
  db.messages.filter fun m => m.conversation_id == conversation_id

/-- The message fetch of `get_conversation_context`: most recent
`max_messages` rows (`ORDER BY created_at DESC LIMIT max_messages`), put
back in chronological order by `messages.reverse()`. -/
def fetch_recent (db : Store) (conversation_id max_messages : Nat) :
    List StoredMsg :=
  (((convMessages db conversation_id).insertionSort msgDesc).take
    max_messages).reverse

/-- Embeds `MemoryManager._get_latest_summary`: most recent summary row for
the conversation, if any. -/
def get_latest_summary (db : Store) (conversation_id : Nat) : Option String :=
  ((((db.summaries.filter fun s =>
      s.conversation_id == conversation_id).insertionSort sumDesc).take
    1).head?).map (·.summary)

/-- Embeds `MemoryManager.get_conversation_context`: the recent messages as
role/content entries, with one synthetic system entry carrying the latest
summary inserted at position 0 when a summary exists. -/
def get_conversation_context (db : Store) (conversation_id max_messages : Nat) :
    List CtxEntry :=
  let context := (fetch_recent db conversation_id max_messages).map fun m =>
    ({ role := m.role, content := m.content } : CtxEntry)
  match get_latest_summary db conversation_id with
  | some summary =>
    ({ role := "system",
       content := "[Conversation summary up to this point: " ++ summary ++ "]"
     } : CtxEntry) :: context
  | none => context

/-- Embeds `MemoryManager.should_summarize`: `COUNT(messages) >
MAX_SHORT_TERM_MESSAGES * 2`. -/
def should_summarize (db : Store) (conversation_id : Nat) : Bool :=
  (convMessages db conversation_id).length > MAX_SHORT_TERM_MESSAGES * 2

/-- The message fetch of `summarize_conversation` (`ORDER BY created_at`
ascending, `LIMIT MAX_SHORT_TERM_MESSAGES * 2`).  Note: despite the
source comment "Get all messages not yet summarized", the query selects
the oldest rows of the conversation unconditionally; no predicate excludes
messages covered by an earlier summary (and `summarize_conversation` never
populates the `messages_summarized` column that could delimit them). -/
def summarize_fetch (db : Store) (conversation_id : Nat) : List StoredMsg :=
  ((convMessages db conversation_id).insertionSort msgAsc).take
    (MAX_SHORT_TERM_MESSAGES * 2)

/-- The summarizer prompt transcript sent to the gateway. -/
def summarizer_messages (text : String) : List CtxEntry :=
  [{ role := "system",
     content := "You are a conversation summarizer for a wealth management platform. Summarize the following conversation, preserving key facts about clients, portfolios, decisions made, and action items. Be concise but complete." },
   { role := "user", content := "Summarize this conversation:\n\n" ++ text }]

/-- Embeds `MemoryManager.summarize_conversation`.  `gw` is the completion
gateway; `now` is the database-assigned creation stamp of the new summary
row.  Returns the summary text and the updated store, or "" and the
unchanged store when the fetch is empty. -/
def summarize_conversation (gw : List CtxEntry → String) (db : Store)
    (conversation_id now : Nat) : String × Store :=
  let msgs := summarize_fetch db conversation_id
  if msgs.isEmpty then ("", db)
  else
    let text := String.intercalate "\n" (msgs.map fun m => m.role ++ ": " ++ m.content)
    let summary_text := gw (summarizer_messages text)
    (summary_text,
     { db with summaries :=
        db.summaries ++ [⟨conversation_id, summary_text, now⟩] })

/-- A concrete registry entry used to exercise dispatch in the witnesses:
it inspects the injected db handle and the client_id argument. -/
def sampleTool : ToolEntry where
  fn := fun args =>
    match lookupKV args "db", lookupKV args "client_id" with
    | some (ArgVal.db h), some (ArgVal.json v) =>
      .ok (.obj [("handle", .int h), ("client", v)])
    | _, _ => .error "missing"
  name := "get_client"
  description := "d"
  parameters := .null

/-- A gateway that proposes a tool call whenever a catalog is offered and
returns text once tools are withheld (the mock of the spec's bounds
check). -/
def mockToolGateway : Gateway := fun _msgs _model tools _temp =>
  match tools with
  | some _ => { tool_calls := [{ id := "1", name := "missing_tool", arguments := "oops" }] }
  | none => { content := some "forced answer" }

/-- A concrete store exercising `get_conversation_context`: conversation 0
has three messages (inserted out of order) and two summaries; conversation
1 has an unrelated message. -/
def c5db : Store :=
  ⟨[⟨0, "user", "a", 1⟩, ⟨1, "user", "x", 4⟩, ⟨0, "assistant", "b", 2⟩,
    ⟨0, "user", "c", 3⟩],
   [⟨0, "old sum", 5⟩, ⟨0, "new sum", 9⟩]⟩

/-- A concrete conversation for the summarization divergence: three
messages, no summary yet. -/
def c7db : Store :=
  ⟨[⟨0, "user", "hi", 1⟩, ⟨0, "assistant", "hello", 2⟩,
    ⟨0, "user", "thanks", 3⟩], []⟩

example : json_dumps (.obj [("b", .str "x")]) = "\x7b\"b\": \"x\"\x7d" := by
  simp [json_dumps, JVal.render, renderFields, renderField, escapeChars]

example : json_dumps (.obj []) = "\x7b\x7d" := by
  simp [json_dumps, JVal.render, renderFields]

example : json_dumps (.obj [("error", .str "Unknown tool: t")]) = "\x7b\"error\": \"Unknown tool: t\"\x7d" := by
  simp [json_dumps, JVal.render, renderFields, renderField, escapeChars]

example : json_loads "\x7b\x7d" = some [] := rfl

example : json_loads "nonsense" = none := rfl

theorem parseStringBody_escape (cs : List Char) (rest : List Char) :
    parseStringBody (escapeChars cs ++ '"' :: rest) = some (cs, rest) := by
  induction cs with
  | nil =>
    rw [show escapeChars [] = [] from rfl, List.nil_append, parseStringBody.eq_def]
    simp
  | cons c cs ih =>
    by_cases hc : c = '"' ∨ c = '\\'
    · have he : escapeChars (c :: cs) = '\\' :: c :: escapeChars cs := by
        simp [escapeChars, hc]
      rw [he, List.cons_append, List.cons_append, parseStringBody.eq_def]
      simp [ih]
    · have hcq : ¬ c = '"' := fun h => hc (Or.inl h)
      have hcb : ¬ c = '\\' := fun h => hc (Or.inr h)
      have he : escapeChars (c :: cs) = c :: escapeChars cs := by
        simp [escapeChars, hcq, hcb]
      rw [he, List.cons_append, parseStringBody.eq_def]
      simp [hcq, hcb, ih]

theorem charToDigit_digitToChar {d : Nat} (h : d < 10) :
    charToDigit (digitToChar d) = some d := by
  interval_cases d <;> rfl


theorem digitToChar_digit (d : Nat) :
    (charToDigit (digitToChar d)).isSome = true := by
  unfold digitToChar
  split <;> decide

theorem digitToChar_ne (d : Nat) {c : Char} (hc : charToDigit c = none) :
    digitToChar d ≠ c := by
  intro he
  have h := digitToChar_digit d
  rw [he, hc] at h
  simp at h

theorem parseDigitsAcc_append {ds : List Nat} (hds : ∀ d ∈ ds, d < 10)
    {rest : List Char} (hrest : noDigitStart rest) (acc : Nat) :
    parseDigitsAcc acc (ds.map digitToChar ++ rest)
      = (acc * 10 ^ ds.length + Nat.ofDigits 10 ds.reverse, rest) := by
  induction ds generalizing acc with
  | nil =>
    cases rest with
    | nil => simp [parseDigitsAcc, Nat.ofDigits]
    | cons c cs =>
      simp only [noDigitStart] at hrest
      simp [parseDigitsAcc, hrest, Nat.ofDigits]
  | cons d ds ih =>
    have hd : d < 10 := hds d (List.mem_cons_self ..)
    simp only [List.map_cons, List.cons_append, parseDigitsAcc,
      charToDigit_digitToChar hd, List.append_eq]
    rw [ih (fun x hx => hds x (List.mem_cons_of_mem _ hx))]
    simp [Nat.ofDigits_append, Nat.ofDigits_cons, Nat.ofDigits_nil, pow_succ]
    ring

theorem parseNat_append {ds : List Nat} (hne : ds ≠ []) (hds : ∀ d ∈ ds, d < 10)
    {rest : List Char} (hrest : noDigitStart rest) :
    parseNat (ds.map digitToChar ++ rest) = some (Nat.ofDigits 10 ds.reverse, rest) := by
  cases ds with
  | nil => exact absurd rfl hne
  | cons d ds' =>
    have hd := hds d (List.mem_cons_self ..)
    simp only [List.map_cons, List.cons_append, parseNat,
      charToDigit_digitToChar hd, List.append_eq]
    rw [parseDigitsAcc_append (fun x hx => hds x (List.mem_cons_of_mem _ hx)) hrest d]
    simp [Nat.ofDigits_append, Nat.ofDigits_cons, Nat.ofDigits_nil]
    ring


theorem litChars_true_eq : litChars "true" = ['t', 'r', 'u', 'e'] := by decide

theorem litChars_false_eq : litChars "false" = ['f', 'a', 'l', 's', 'e'] := by decide

theorem litChars_null_eq : litChars "null" = ['n', 'u', 'l', 'l'] := by decide

theorem natChars_eq (n : Nat) : natChars n = (msbDigits n).map digitToChar := by
  cases n with
  | zero => rfl
  | succ m =>
    simp only [natChars, msbDigits]
    rw [List.map_reverse]

theorem msbDigits_ne_nil (n : Nat) : msbDigits n ≠ [] := by
  cases n with
  | zero => simp [msbDigits]
  | succ m =>
    simp only [msbDigits]
    simp [Nat.digits_ne_nil_iff_ne_zero.mpr (Nat.succ_ne_zero m)]

theorem msbDigits_lt (n : Nat) : ∀ d ∈ msbDigits n, d < 10 := by
  cases n with
  | zero => simp [msbDigits]
  | succ m =>
    intro d hd
    simp only [msbDigits] at hd
    exact Nat.digits_lt_base (by norm_num) (List.mem_reverse.mp hd)

theorem ofDigits_msbDigits (n : Nat) :
    Nat.ofDigits 10 (msbDigits n).reverse = n := by
  cases n with
  | zero => simp [msbDigits, Nat.ofDigits]
  | succ m =>
    simp only [msbDigits]
    rw [List.reverse_reverse, Nat.ofDigits_digits]

theorem parseNat_natChars (n : Nat) {rest : List Char} (hrest : noDigitStart rest) :
    parseNat (natChars n ++ rest) = some (n, rest) := by
  rw [natChars_eq, parseNat_append (msbDigits_ne_nil n) (msbDigits_lt n) hrest,
    ofDigits_msbDigits]

theorem natChars_head (n : Nat) :
    ∃ d ds, natChars n = digitToChar d :: ds := by
  rw [natChars_eq]
  obtain ⟨d, ds, h⟩ : ∃ d ds, msbDigits n = d :: ds := by
    cases h : msbDigits n with
    | nil => exact absurd h (msbDigits_ne_nil n)
    | cons a l => exact ⟨a, l, rfl⟩
  exact ⟨d, ds.map digitToChar, by rw [h]; rfl⟩


theorem parseDigitList_append {ds : List Nat} (hds : ∀ d ∈ ds, d < 10)
    {rest : List Char} (hrest : noDigitStart rest) :
    parseDigitList (ds.map digitToChar ++ rest) = (ds, rest) := by
  induction ds with
  | nil =>
    cases rest with
    | nil => rfl
    | cons c cs =>
      simp only [noDigitStart] at hrest
      simp [parseDigitList, hrest]
  | cons d ds ih =>
    have hd : d < 10 := hds d (List.mem_cons_self ..)
    simp only [List.map_cons, List.cons_append, parseDigitList,
      charToDigit_digitToChar hd, List.append_eq]
    rw [ih (fun x hx => hds x (List.mem_cons_of_mem _ hx))]

theorem numBoundary_noDigit {rest : List Char} (h : numBoundary rest) :
    noDigitStart rest := by
  cases rest with
  | nil => trivial
  | cons c cs =>
    simp only [numBoundary] at h
    simp only [noDigitStart]
    exact h.1

theorem parseUnsignedNum_int (n : Nat) {rest : List Char}
    (hrest : numBoundary rest) :
    parseUnsignedNum (natChars n ++ rest) = some (.inl n, rest) := by
  unfold parseUnsignedNum
  rw [parseNat_natChars n (numBoundary_noDigit hrest)]
  have hdot : ¬ (rest.head? = some '.') := by
    cases rest with
    | nil => simp
    | cons c cs =>
      simp only [numBoundary] at hrest
      simp [hrest.2]
  simp [hdot]

theorem parseUnsignedNum_frac (ip : Nat) (frac : List Nat) (hne : frac ≠ [])
    (hlt : ∀ d ∈ frac, d < 10) {rest : List Char} (hrest : noDigitStart rest) :
    parseUnsignedNum (natChars ip ++ ('.' :: (frac.map digitToChar ++ rest)))
      = some (.inr (ip, frac), rest) := by
  unfold parseUnsignedNum
  rw [parseNat_natChars ip (by exact rfl)]
  simp only [List.head?_cons, List.tail_cons]
  rw [parseDigitList_append hlt hrest]
  simp [List.isEmpty_iff, hne]

theorem parseNumber_int (n : Int) {rest : List Char} (hrest : numBoundary rest) :
    parseNumber (intChars n ++ rest) = some (.int n, rest) := by
  unfold intChars
  split
  · rename_i hneg
    rw [List.cons_append]
    unfold parseNumber
    rw [if_pos (by rfl)]
    simp only [List.tail_cons]
    rw [parseUnsignedNum_int n.natAbs hrest]
    simp only [Option.map_some']
    have h : -((n.natAbs : Nat) : Int) = n := by omega
    rw [h]
  · rename_i hpos
    obtain ⟨d, ds, hh⟩ := natChars_head n.toNat
    unfold parseNumber
    have hhead : (natChars n.toNat ++ rest).head? = some (digitToChar d) := by
      rw [hh]; rfl
    rw [if_neg (by
      rw [hhead]
      simp [digitToChar_ne d (show charToDigit '-' = none from rfl)])]
    rw [parseUnsignedNum_int n.toNat hrest]
    have h : ((n.toNat : Nat) : Int) = n := by omega
    simp [h]

theorem parseNumber_num (neg : Bool) (ip : Nat) (frac : List Nat)
    (hne : frac ≠ []) (hlt : ∀ d ∈ frac, d < 10) {rest : List Char}
    (hrest : noDigitStart rest) :
    parseNumber (JVal.render (.num neg ip frac) ++ rest)
      = some (.num neg ip frac, rest) := by
  cases neg with
  | false =>
    have hr : JVal.render (JVal.num false ip frac) ++ rest
        = natChars ip ++ ('.' :: (frac.map digitToChar ++ rest)) := by
      simp [JVal.render]
    rw [hr]
    obtain ⟨d, ds, hh⟩ := natChars_head ip
    unfold parseNumber
    have hhead : (natChars ip ++ ('.' :: (frac.map digitToChar ++ rest))).head?
        = some (digitToChar d) := by
      rw [hh]; rfl
    rw [if_neg (by
      rw [hhead]
      simp [digitToChar_ne d (show charToDigit '-' = none from rfl)])]
    rw [parseUnsignedNum_frac ip frac hne hlt hrest]
    rfl
  | true =>
    have hr : JVal.render (JVal.num true ip frac) ++ rest
        = '-' :: (natChars ip ++ ('.' :: (frac.map digitToChar ++ rest))) := by
      simp [JVal.render]
    rw [hr]
    unfold parseNumber
    rw [if_pos (by rfl)]
    simp only [List.tail_cons]
    rw [parseUnsignedNum_frac ip frac hne hlt hrest]
    rfl

theorem take_ne_of_head_ne {cs : List Char} {c : Char} (h : cs.head? ≠ some c)
    (l : List Char) (k : Nat) : cs.take (k + 1) ≠ c :: l := by
  cases cs with
  | nil => simp
  | cons a as =>
    simp only [List.head?_cons, ne_eq, Option.some.injEq] at h
    simp [List.take_succ_cons, h]


theorem render_head (v : JVal) :
    ∃ c t, JVal.render v = c :: t ∧ c ≠ ']' := by
  cases v with
  | str s =>
    exact ⟨'"', escapeChars s.data ++ ['"'], by simp [JVal.render], by decide⟩
  | int n =>
    unfold JVal.render intChars
    split
    · exact ⟨'-', natChars n.natAbs, rfl, by decide⟩
    · obtain ⟨d, ds, hh⟩ := natChars_head n.toNat
      exact ⟨digitToChar d, ds, hh,
        digitToChar_ne d (show charToDigit ']' = none from rfl)⟩
  | num neg ip frac =>
    cases neg with
    | false =>
      obtain ⟨d, ds, hh⟩ := natChars_head ip
      refine ⟨digitToChar d, ds ++ ('.' :: frac.map digitToChar), ?_,
        digitToChar_ne d (show charToDigit ']' = none from rfl)⟩
      simp [JVal.render, hh]
    | true =>
      exact ⟨'-', natChars ip ++ '.' :: frac.map digitToChar,
        by simp [JVal.render], by decide⟩
  | bool b =>
    cases b with
    | false =>
      exact ⟨'f', ['a', 'l', 's', 'e'],
        by simp [JVal.render, litChars_false_eq], by decide⟩
    | true =>
      exact ⟨'t', ['r', 'u', 'e'],
        by simp [JVal.render, litChars_true_eq], by decide⟩
  | null =>
    exact ⟨'n', ['u', 'l', 'l'],
      by simp [JVal.render, litChars_null_eq], by decide⟩
  | obj fs =>
    exact ⟨'{', renderFields fs ++ ['}'], by simp [JVal.render], by decide⟩
  | arr es =>
    exact ⟨'[', renderElems es ++ [']'], by simp [JVal.render], by decide⟩

theorem renderFields_head (fs : List (String × JVal)) (hne : fs ≠ []) :
    ∃ t, renderFields fs = '"' :: t := by
  cases fs with
  | nil => exact absurd rfl hne
  | cons f fs' =>
    obtain ⟨k, v⟩ := f
    cases fs' with
    | nil =>
      exact ⟨escapeChars k.data ++ '"' :: ':' :: ' ' :: JVal.render v,
        by simp [renderFields, renderField]⟩
    | cons f2 fs'' =>
      exact ⟨escapeChars k.data ++ '"' :: ':' :: ' ' ::
          (JVal.render v ++ ',' :: ' ' :: renderFields (f2 :: fs'')),
        by simp [renderFields, renderField]⟩

theorem jsize_pos (v : JVal) : 1 ≤ jsize v := by
  cases v <;> simp [jsize]

theorem renderElems_head (es : List JVal) (hne : es ≠ []) :
    ∃ c t, renderElems es = c :: t ∧ c ≠ ']' := by
  cases es with
  | nil => exact absurd rfl hne
  | cons e es' =>
    obtain ⟨c, t, hct, hc⟩ := render_head e
    cases es' with
    | nil => exact ⟨c, t, by simp [renderElems, hct], hc⟩
    | cons e2 es'' =>
      exact ⟨c, t ++ ',' :: ' ' :: renderElems (e2 :: es''),
        by simp [renderElems, hct], hc⟩

theorem parseValF_other (c0 : Char) (t : List Char) (fuel : Nat)
    (h1 : c0 ≠ '"') (h2 : c0 ≠ '{') (h3 : c0 ≠ '[')
    (h4 : c0 ≠ 't') (h5 : c0 ≠ 'f') (h6 : c0 ≠ 'n') :
    parseValF (fuel + 1) (c0 :: t) = parseNumber (c0 :: t) := by
  simp only [parseValF, List.head?_cons, litChars_true_eq, litChars_false_eq,
    litChars_null_eq]
  simp [h1, h2, h3, h4, h5, h6]

theorem parseValF_int_branch (n : Int) (rest : List Char) (fuel : Nat) :
    parseValF (fuel + 1) (intChars n ++ rest)
      = parseNumber (intChars n ++ rest) := by
  unfold intChars
  split
  · rw [List.cons_append]
    exact parseValF_other '-' _ fuel (by decide) (by decide) (by decide)
      (by decide) (by decide) (by decide)
  · obtain ⟨d, ds, hh⟩ := natChars_head n.toNat
    rw [hh, List.cons_append]
    refine parseValF_other _ _ fuel ?_ ?_ ?_ ?_ ?_ ?_ <;>
      exact digitToChar_ne d (by decide)

theorem parseValF_num_branch (neg : Bool) (ip : Nat) (frac : List Nat)
    (rest : List Char) (fuel : Nat) :
    parseValF (fuel + 1) (JVal.render (JVal.num neg ip frac) ++ rest)
      = parseNumber (JVal.render (JVal.num neg ip frac) ++ rest) := by
  cases neg with
  | true =>
    have hr : JVal.render (JVal.num true ip frac) ++ rest
        = '-' :: (natChars ip ++ '.' :: frac.map digitToChar ++ rest) := by
      simp [JVal.render]
    rw [hr]
    exact parseValF_other '-' _ fuel (by decide) (by decide) (by decide)
      (by decide) (by decide) (by decide)
  | false =>
    obtain ⟨d, ds, hh⟩ := natChars_head ip
    have hr : JVal.render (JVal.num false ip frac) ++ rest
        = digitToChar d :: (ds ++ '.' :: frac.map digitToChar ++ rest) := by
      simp [JVal.render, hh]
    rw [hr]
    refine parseValF_other _ _ fuel ?_ ?_ ?_ ?_ ?_ ?_ <;>
      exact digitToChar_ne d (by decide)

theorem parseFieldsF_last (fuel : Nat) (kd : List Char) (v : JVal)
    (R rest : List Char) (hv : parseValF fuel R = some (v, '}' :: rest)) :
    parseFieldsF (fuel + 1) ('"' :: (escapeChars kd ++ '"' :: (':' :: ' ' :: R)))
      = some ([(String.mk kd, v)], rest) := by
  simp [parseFieldsF, parseStringBody_escape, hv]

theorem parseFieldsF_step (fuel : Nat) (kd : List Char) (v : JVal)
    (fs : List (String × JVal)) (R r4 rest : List Char)
    (hv : parseValF fuel R = some (v, ',' :: ' ' :: r4))
    (hf : parseFieldsF fuel r4 = some (fs, rest)) :
    parseFieldsF (fuel + 1) ('"' :: (escapeChars kd ++ '"' :: (':' :: ' ' :: R)))
      = some ((String.mk kd, v) :: fs, rest) := by
  simp [parseFieldsF, parseStringBody_escape, hv, hf]

theorem parseElemsF_last (fuel : Nat) (v : JVal) (cs rest : List Char)
    (hv : parseValF fuel cs = some (v, ']' :: rest)) :
    parseElemsF (fuel + 1) cs = some ([v], rest) := by
  simp [parseElemsF, hv]

theorem parseElemsF_step (fuel : Nat) (v : JVal) (es : List JVal)
    (cs r rest : List Char)
    (hv : parseValF fuel cs = some (v, ',' :: ' ' :: r))
    (he : parseElemsF fuel r = some (es, rest)) :
    parseElemsF (fuel + 1) cs = some (v :: es, rest) := by
  simp [parseElemsF, hv, he]

/-- Simultaneous inversion of the canonical renderer through the
recursive-descent parser, by strong induction on the structural size:
parsing the rendering of any well-formed value (or rendered field/element
list) with sufficient fuel consumes exactly the rendering and returns the
original value. -/
theorem parse_render_inv (N : Nat) :
    (∀ (v : JVal) (fuel : Nat) (rest : List Char),
        sizeOf v ≤ N → jvalWF v = true → jsize v ≤ fuel → numBoundary rest →
        parseValF fuel (JVal.render v ++ rest) = some (v, rest))
  ∧ (∀ (fs : List (String × JVal)) (fuel : Nat) (rest : List Char),
        sizeOf fs ≤ N → fs ≠ [] → fieldsWF fs = true → fsize fs ≤ fuel →
        parseFieldsF fuel (renderFields fs ++ '}' :: rest) = some (fs, rest))
  ∧ (∀ (es : List JVal) (fuel : Nat) (rest : List Char),
        sizeOf es ≤ N → es ≠ [] → elemsWF es = true → esize es ≤ fuel →
        parseElemsF fuel (renderElems es ++ ']' :: rest) = some (es, rest)) := by
  induction N using Nat.strong_induction_on with
  | _ N IH =>
    refine ⟨?_, ?_, ?_⟩
    · intro v fuel rest hsz hwf hfuel hrest
      have hjp := jsize_pos v
      cases fuel with
      | zero => omega
      | succ fuel =>
        cases v with
        | str s =>
          obtain ⟨sd⟩ := s
          have hr : JVal.render (JVal.str (String.mk sd)) ++ rest
              = '"' :: (escapeChars sd ++ '"' :: rest) := by
            simp [JVal.render]
          rw [hr]
          simp only [parseValF, List.head?_cons, List.tail_cons]
          rw [if_pos trivial, parseStringBody_escape]
          rfl
        | int n =>
          rw [show JVal.render (JVal.int n) = intChars n from by simp [JVal.render],
              parseValF_int_branch]
          exact parseNumber_int n hrest
        | num neg ip frac =>
          have hne : frac ≠ [] := by
            intro h
            subst h
            simp [jvalWF] at hwf
          have hlt : ∀ d ∈ frac, d < 10 := by
            have h2 := hwf
            simp only [jvalWF, Bool.and_eq_true, List.all_eq_true,
              decide_eq_true_eq] at h2
            exact h2.2
          rw [parseValF_num_branch]
          exact parseNumber_num neg ip frac hne hlt (numBoundary_noDigit hrest)
        | bool b =>
          cases b with
          | true =>
            rw [show JVal.render (JVal.bool true) ++ rest
                = 't' :: 'r' :: 'u' :: 'e' :: rest from by
              simp [JVal.render, litChars_true_eq]]
            simp [parseValF, litChars_true_eq, litChars_false_eq,
              litChars_null_eq]
          | false =>
            rw [show JVal.render (JVal.bool false) ++ rest
                = 'f' :: 'a' :: 'l' :: 's' :: 'e' :: rest from by
              simp [JVal.render, litChars_false_eq]]
            simp [parseValF, litChars_true_eq, litChars_false_eq,
              litChars_null_eq]
        | null =>
          rw [show JVal.render JVal.null ++ rest
              = 'n' :: 'u' :: 'l' :: 'l' :: rest from by
            simp [JVal.render, litChars_null_eq]]
          simp [parseValF, litChars_true_eq, litChars_false_eq,
            litChars_null_eq]
        | obj fs =>
          have hwf' : fieldsWF fs = true := by simpa [jvalWF] using hwf
          have hr : JVal.render (JVal.obj fs) ++ rest
              = '{' :: (renderFields fs ++ '}' :: rest) := by
            simp [JVal.render]
          rw [hr]
          cases fs with
          | nil =>
            rw [show renderFields ([] : List (String × JVal)) = [] from by
              simp [renderFields]]
            simp [parseValF]
          | cons f fs' =>
            obtain ⟨t, ht⟩ := renderFields_head (f :: fs') (by simp)
            have hszf : sizeOf (f :: fs') < N := by
              have h1 : sizeOf (JVal.obj (f :: fs')) = 1 + sizeOf (f :: fs') := by
                simp
              omega
            have hfuel2 : fsize (f :: fs') ≤ fuel := by
              have h1 : jsize (JVal.obj (f :: fs')) = 1 + fsize (f :: fs') := by
                simp [jsize]
              omega
            simp only [parseValF, List.head?_cons, List.tail_cons]
            rw [if_neg (by simp), if_neg (by rw [List.take_succ_cons, ht]; simp),
                if_pos trivial]
            rw [(IH (sizeOf (f :: fs')) hszf).2.1 (f :: fs') fuel rest le_rfl
              (by simp) hwf' hfuel2]
            rfl
        | arr es =>
          have hwf' : elemsWF es = true := by simpa [jvalWF] using hwf
          have hr : JVal.render (JVal.arr es) ++ rest
              = '[' :: (renderElems es ++ ']' :: rest) := by
            simp [JVal.render]
          rw [hr]
          cases es with
          | nil =>
            rw [show renderElems ([] : List JVal) = [] from by simp [renderElems]]
            simp [parseValF]
          | cons e es' =>
            obtain ⟨c, t, hct, hc⟩ := renderElems_head (e :: es') (by simp)
            have hszE : sizeOf (e :: es') < N := by
              have h1 : sizeOf (JVal.arr (e :: es')) = 1 + sizeOf (e :: es') := by
                simp
              omega
            have hfuel2 : esize (e :: es') ≤ fuel := by
              have h1 : jsize (JVal.arr (e :: es')) = 1 + esize (e :: es') := by
                simp [jsize]
              omega
            simp only [parseValF, List.head?_cons, List.tail_cons]
            rw [if_neg (by simp), if_neg (by simp), if_neg (by simp),
                if_neg (by rw [List.take_succ_cons, hct]; simp [hc]),
                if_pos trivial]
            rw [(IH (sizeOf (e :: es')) hszE).2.2 (e :: es') fuel rest le_rfl
              (by simp) hwf' hfuel2]
            rfl
    · intro fs fuel rest hsz hne hwf hfuel
      cases fs with
      | nil => exact absurd rfl hne
      | cons f fs' =>
        obtain ⟨k, v⟩ := f
        obtain ⟨kd⟩ := k
        have hwf' : jvalWF v = true ∧ fieldsWF fs' = true := by
          simpa [fieldsWF, Bool.and_eq_true] using hwf
        have hfs : fsize ((String.mk kd, v) :: fs') = 1 + jsize v + fsize fs' := by
          simp [fsize]
        have hjv := jsize_pos v
        have hsp1 : sizeOf ((String.mk kd, v) :: fs')
            = 1 + sizeOf (String.mk kd, v) + sizeOf fs' := by simp
        have hsp2 : sizeOf (String.mk kd, v)
            = 1 + sizeOf (String.mk kd) + sizeOf v := by simp
        cases fuel with
        | zero => omega
        | succ fuel =>
          cases fs' with
          | nil =>
            have h0 : fsize ([] : List (String × JVal)) = 0 := by simp [fsize]
            have hr : renderFields [(String.mk kd, v)] ++ '}' :: rest
                = '"' :: (escapeChars kd ++ '"' ::
                    (':' :: ' ' :: (JVal.render v ++ '}' :: rest))) := by
              simp [renderFields, renderField]
            rw [hr]
            exact parseFieldsF_last fuel kd v _ rest
              ((IH (sizeOf v) (by omega)).1 v fuel ('}' :: rest) le_rfl hwf'.1
                (by omega) ⟨by decide, by decide⟩)
          | cons f2 fs'' =>
            have hr : renderFields ((String.mk kd, v) :: f2 :: fs'') ++ '}' :: rest
                = '"' :: (escapeChars kd ++ '"' :: (':' :: ' ' ::
                    (JVal.render v ++ ',' :: ' ' ::
                      (renderFields (f2 :: fs'') ++ '}' :: rest)))) := by
              simp [renderFields, renderField]
            rw [hr]
            exact parseFieldsF_step fuel kd v (f2 :: fs'') _ _ rest
              ((IH (sizeOf v) (by omega)).1 v fuel
                (',' :: ' ' :: (renderFields (f2 :: fs'') ++ '}' :: rest)) le_rfl
                hwf'.1 (by omega) ⟨by decide, by decide⟩)
              ((IH (sizeOf (f2 :: fs'')) (by omega)).2.1 (f2 :: fs'') fuel rest
                le_rfl (by simp) hwf'.2 (by omega))
    · intro es fuel rest hsz hne hwf hfuel
      cases es with
      | nil => exact absurd rfl hne
      | cons e es' =>
        have hwf' : jvalWF e = true ∧ elemsWF es' = true := by
          simpa [elemsWF, Bool.and_eq_true] using hwf
        have hes : esize (e :: es') = 1 + jsize e + esize es' := by simp [esize]
        have hje := jsize_pos e
        have hsp1 : sizeOf (e :: es') = 1 + sizeOf e + sizeOf es' := by simp
        cases fuel with
        | zero => omega
        | succ fuel =>
          cases es' with
          | nil =>
            have h0 : esize ([] : List JVal) = 0 := by simp [esize]
            have hr : renderElems [e] ++ ']' :: rest
                = JVal.render e ++ ']' :: rest := by
              simp [renderElems]
            rw [hr]
            exact parseElemsF_last fuel e _ rest
              ((IH (sizeOf e) (by omega)).1 e fuel (']' :: rest) le_rfl hwf'.1
                (by omega) ⟨by decide, by decide⟩)
          | cons e2 es'' =>
            have hr : renderElems (e :: e2 :: es'') ++ ']' :: rest
                = JVal.render e ++ ',' :: ' ' ::
                    (renderElems (e2 :: es'') ++ ']' :: rest) := by
              simp [renderElems]
            rw [hr]
            exact parseElemsF_step fuel e (e2 :: es'') _ _ rest
              ((IH (sizeOf e) (by omega)).1 e fuel
                (',' :: ' ' :: (renderElems (e2 :: es'') ++ ']' :: rest)) le_rfl
                hwf'.1 (by omega) ⟨by decide, by decide⟩)
              ((IH (sizeOf (e2 :: es'')) (by omega)).2.2 (e2 :: es'') fuel rest
                le_rfl (by simp) hwf'.2 (by omega))

/-- The structural fuel need of a value is bounded by the length of its
rendering (and of a field or element list by its rendering plus one), so
the input length always supplies enough fuel. -/
theorem jsize_le_render (N : Nat) :
    (∀ (v : JVal), sizeOf v ≤ N → jsize v ≤ (JVal.render v).length)
  ∧ (∀ (fs : List (String × JVal)), sizeOf fs ≤ N →
        fsize fs ≤ (renderFields fs).length + 1)
  ∧ (∀ (es : List JVal), sizeOf es ≤ N →
        esize es ≤ (renderElems es).length + 1) := by
  induction N using Nat.strong_induction_on with
  | _ N IH =>
    refine ⟨?_, ?_, ?_⟩
    · intro v hsz
      cases v with
      | str s =>
        have h1 : jsize (JVal.str s) = 1 := by simp [jsize]
        have h2 : (JVal.render (JVal.str s)).length
            = (escapeChars s.data).length + 2 := by simp [JVal.render]
        omega
      | int n =>
        have h : ∃ c t, intChars n = c :: t := by
          unfold intChars
          split
          · exact ⟨_, _, rfl⟩
          · obtain ⟨d, ds, hh⟩ := natChars_head n.toNat
            exact ⟨_, _, hh⟩
        obtain ⟨c, t, hct⟩ := h
        have h1 : jsize (JVal.int n) = 1 := by simp [jsize]
        have h2 : (JVal.render (JVal.int n)).length = t.length + 1 := by
          simp [JVal.render, hct]
        omega
      | num neg ip frac =>
        obtain ⟨d, ds, hh⟩ := natChars_head ip
        have h1 : jsize (JVal.num neg ip frac) = 1 := by simp [jsize]
        rw [h1]
        cases neg <;> simp [JVal.render, hh]
      | bool b =>
        cases b <;>
          norm_num [jsize, JVal.render, litChars_true_eq, litChars_false_eq]
      | null => norm_num [jsize, JVal.render, litChars_null_eq]
      | obj fs =>
        have hspec : sizeOf (JVal.obj fs) = 1 + sizeOf fs := by simp
        have hfs := (IH (sizeOf fs) (by omega)).2.1 fs le_rfl
        have h1 : jsize (JVal.obj fs) = 1 + fsize fs := by simp [jsize]
        have h2 : (JVal.render (JVal.obj fs)).length
            = (renderFields fs).length + 2 := by simp [JVal.render]
        omega
      | arr es =>
        have hspec : sizeOf (JVal.arr es) = 1 + sizeOf es := by simp
        have hes := (IH (sizeOf es) (by omega)).2.2 es le_rfl
        have h1 : jsize (JVal.arr es) = 1 + esize es := by simp [jsize]
        have h2 : (JVal.render (JVal.arr es)).length
            = (renderElems es).length + 2 := by simp [JVal.render]
        omega
    · intro fs hsz
      cases fs with
      | nil => norm_num [fsize, renderFields]
      | cons f fs' =>
        obtain ⟨k, v⟩ := f
        have hsp1 : sizeOf ((k, v) :: fs')
            = 1 + sizeOf (k, v) + sizeOf fs' := by simp
        have hsp2 : sizeOf (k, v) = 1 + sizeOf k + sizeOf v := by simp
        have hv := (IH (sizeOf v) (by omega)).1 v le_rfl
        have hfs' := (IH (sizeOf fs') (by omega)).2.1 fs' le_rfl
        have h1 : fsize ((k, v) :: fs') = 1 + jsize v + fsize fs' := by
          simp [fsize]
        have hfld : (renderField (k, v)).length
            = (escapeChars k.data).length + 4 + (JVal.render v).length := by
          simp only [renderField, List.length_cons, List.length_append]
          omega
        cases fs' with
        | nil =>
          have h0 : fsize ([] : List (String × JVal)) = 0 := by simp [fsize]
          have h2 : (renderFields [(k, v)]).length = (renderField (k, v)).length := by
            simp [renderFields]
          omega
        | cons f2 fs'' =>
          have h2 : (renderFields ((k, v) :: f2 :: fs'')).length
              = (renderField (k, v)).length + 2
                + (renderFields (f2 :: fs'')).length := by
            rw [show renderFields ((k, v) :: f2 :: fs'')
                = renderField (k, v) ++ ',' :: ' ' :: renderFields (f2 :: fs'')
              from by simp [renderFields]]
            simp only [List.length_append, List.length_cons]
            omega
          omega
    · intro es hsz
      cases es with
      | nil => norm_num [esize, renderElems]
      | cons e es' =>
        have hsp1 : sizeOf (e :: es') = 1 + sizeOf e + sizeOf es' := by simp
        have hv := (IH (sizeOf e) (by omega)).1 e le_rfl
        have hes' := (IH (sizeOf es') (by omega)).2.2 es' le_rfl
        have h1 : esize (e :: es') = 1 + jsize e + esize es' := by simp [esize]
        cases es' with
        | nil =>
          have h0 : esize ([] : List JVal) = 0 := by simp [esize]
          have h2 : (renderElems [e]).length = (JVal.render e).length := by
            simp [renderElems]
          omega
        | cons e2 es'' =>
          have h2 : (renderElems (e :: e2 :: es'')).length
              = (JVal.render e).length + 2 + (renderElems (e2 :: es'')).length := by
            rw [show renderElems (e :: e2 :: es'')
                = JVal.render e ++ ',' :: ' ' :: renderElems (e2 :: es'')
              from by simp [renderElems]]
            simp only [List.length_append, List.length_cons]
            omega
          omega

theorem fsize_le_renderFields (fs : List (String × JVal)) :
    fsize fs ≤ (renderFields fs).length + 1 :=
  (jsize_le_render (sizeOf fs)).2.1 fs le_rfl

/-- Round-trip of the canonical serialization through the argument parser:
`json.loads` applied to `json.dumps` of any well-formed object -- nested
values, escaped strings and decimal float literals included -- returns
exactly the original key/value map. -/
theorem json_loads_dumps (m : List (String × JVal)) (hm : fieldsWF m = true) :
    json_loads (json_dumps (JVal.obj m)) = some m := by
  have hr : (json_dumps (JVal.obj m)).data = '{' :: (renderFields m ++ ['}']) := by
    simp [json_dumps, JVal.render]
  unfold json_loads
  rw [hr]
  cases m with
  | nil =>
    rw [show renderFields ([] : List (String × JVal)) = [] from by
      simp [renderFields]]
    rfl
  | cons f fs =>
    have hp : parseObjTop ('{' :: (renderFields (f :: fs) ++ ['}']))
        = some (f :: fs, []) := by
      obtain ⟨t, ht⟩ := renderFields_head (f :: fs) (by simp)
      simp only [parseObjTop, List.head?_cons, List.tail_cons]
      rw [if_neg (by rw [List.take_succ_cons, ht]; simp), if_pos trivial]
      have hb := fsize_le_renderFields (f :: fs)
      exact (parse_render_inv (sizeOf (f :: fs))).2.1 (f :: fs) _ [] le_rfl
        (by simp) hm
        (by simp only [List.length_append, List.length_cons, List.length_nil]
            omega)
    rw [hp]


theorem find?_map_key {α β : Type} (f : (String × α) → (String × β))
    (hf : ∀ p, (f p).1 = p.1) (a : List (String × α)) (k : String) :
    (a.map f).find? (fun p => p.1 == k) = (a.find? (fun p => p.1 == k)).map f := by
  induction a with
  | nil => rfl
  | cons x a ih =>
    by_cases hx : x.1 == k
    · simp [List.find?_cons, hf, hx]
    · simp [List.find?_cons, hf, hx, ih]

theorem find?_filter_of_none {α : Type} (a b : List (String × α)) (k : String)
    (ha : lookupKV a k = none) :
    (b.filter fun p => (lookupKV a p.1).isNone).find? (fun p => p.1 == k)
      = b.find? (fun p => p.1 == k) := by
  induction b with
  | nil => rfl
  | cons x b ih =>
    by_cases hq : (lookupKV a x.1).isNone
    · by_cases hx : (x.1 == k) = true
      · simp [List.filter_cons, hq, hx]
      · simp [List.filter_cons, hq, hx, ih]
    · have hx : ¬ ((x.1 == k) = true) := by
        intro hxk
        apply hq
        have hx1 : x.1 = k := by simpa using hxk
        rw [hx1, ha]
        rfl
      simp [List.filter_cons, hq, hx, ih]

/-- Lookup in a Python `{**a, **b}` merge: the `b` binding wins when the key
collides, otherwise the `a` binding is untouched. -/
theorem lookupKV_dictMerge {α : Type} (a b : List (String × α)) (k : String) :
    lookupKV (dictMerge a b) k = (lookupKV b k).orElse (fun _ => lookupKV a k) := by
  have hdef : ∀ (l : List (String × α)), lookupKV l k
      = (l.find? (fun p => p.1 == k)).map (fun p => p.2) := fun _ => rfl
  rw [hdef (dictMerge a b)]
  unfold dictMerge
  rw [List.find?_append,
    find?_map_key (fun p => (p.1, (lookupKV b p.1).getD p.2)) (fun p => rfl) a k]
  cases ha : a.find? (fun p => p.1 == k) with
  | some pa =>
    have hk : pa.1 = k := by simpa using List.find?_some ha
    have hlka : lookupKV a k = some pa.2 := by rw [hdef a, ha]; rfl
    simp only [Option.map_some', Option.or_some, hk, hlka]
    cases hb : lookupKV b k with
    | some w => simp [Option.orElse]
    | none => simp [Option.orElse]
  | none =>
    have ha' : lookupKV a k = none := by rw [hdef a, ha]; rfl
    simp only [Option.map_none', Option.none_or]
    rw [find?_filter_of_none a b k ha', ← hdef b, ha']
    cases hb : lookupKV b k <;> simp [Option.orElse]

/-- C6: `should_summarize` returns true iff the conversation's persisted
message count strictly exceeds twice the short-term window size
(2 x 20 = 40), and in particular returns false at exactly the boundary
value 40. -/
theorem c6_should_summarize_threshold (db : Store) (conversation_id : Nat) :
    (should_summarize db conversation_id = true
      ↔ (convMessages db conversation_id).length > 2 * MAX_SHORT_TERM_MESSAGES)
    ∧ ((convMessages db conversation_id).length = 40
      → should_summarize db conversation_id = false) := by
  constructor
  · rw [show 2 * MAX_SHORT_TERM_MESSAGES = MAX_SHORT_TERM_MESSAGES * 2 from rfl]
    exact decide_eq_true_iff
  · intro h
    simp [should_summarize, h, MAX_SHORT_TERM_MESSAGES]

/-- Witness for C6: a conversation holding exactly 40 messages is not yet
summarized, and one holding 41 is. -/
theorem c6_should_summarize_threshold_witness :
    should_summarize ⟨(List.range 40).map (fun i => ⟨0, "user", "m", i⟩), []⟩ 0 = false
    ∧ should_summarize ⟨(List.range 41).map (fun i => ⟨0, "user", "m", i⟩), []⟩ 0 = true := by
  constructor
  · exact (c6_should_summarize_threshold
      ⟨(List.range 40).map (fun i => ⟨0, "user", "m", i⟩), []⟩ 0).2 (by decide)
  · exact (c6_should_summarize_threshold
      ⟨(List.range 41).map (fun i => ⟨0, "user", "m", i⟩), []⟩ 0).1.mpr (by decide)

/-- C10: `delegate` never raises when the target agent is unregistered --
it returns the literal error string "Error: Agent \x27name\x27 not found" as its
result text -- and for a registered target returns exactly the content
field of that agent's run result. -/
theorem c10_delegate_total (gw : Gateway) (reg : ToolRegistry) (db : Nat)
    (agents : AgentRegistry) (agent_name sub_query : String)
    (ctx : AgentContext) :
    (lookupKV agents agent_name = none
      → BaseAgent.delegate gw reg db agents agent_name sub_query ctx
          = "Error: Agent \x27" ++ agent_name ++ "\x27 not found")
    ∧ (∀ other, lookupKV agents agent_name = some other
      → BaseAgent.delegate gw reg db agents agent_name sub_query ctx
          = (BaseAgent.run gw reg db other sub_query ctx).resp.content) := by
  constructor
  · intro h
    simp [BaseAgent.delegate, h]
  · intro other h
    simp [BaseAgent.delegate, h]

/-- Witness for C10: an unregistered name yields the error string; a
registered echo agent's content is passed through verbatim. -/
theorem c10_delegate_total_witness :
    BaseAgent.delegate (fun _ _ _ _ => {}) [] 0 [] "ghost" "q"
        { user_id := "u", advisor_id := "a" }
      = "Error: Agent \x27ghost\x27 not found"
    ∧ BaseAgent.delegate (fun _ _ _ _ => { content := some "hi" }) [] 0
        [("helper", { name := "helper" })] "helper" "q"
        { user_id := "u", advisor_id := "a" }
      = "hi" := by
  constructor
  · exact (c10_delegate_total _ _ _ _ _ _ _).1 rfl
  · rw [(c10_delegate_total (fun _ _ _ _ => { content := some "hi" }) [] 0
      [("helper", { name := "helper" })] "helper" "q"
      { user_id := "u", advisor_id := "a" }).2 { name := "helper" } rfl]
    rfl

/-- C4: for every combination of sub-task outcomes, each NLP sub-task that
raises is replaced by its neutral default (intent: the `general_chat`
fallback at confidence 0; entities: empty set; sentiment:
neutral/zero/low-urgency; query: none) while every sub-task that succeeds
passes through unchanged; the combined result is produced from all four
outcomes after the gather join. -/
theorem c4_nlp_failure_isolation (rIntent : Except String IntentResult)
    (rEntities : Except String EntityResult)
    (rSentiment : Except String SentimentResult)
    (rQuery : Except String QueryResult) :
    ((∀ e, rIntent = .error e
      → (NLPPipeline.process rIntent rEntities rSentiment true rQuery).intent
        = { name := "general_chat", confidence := 0, reasoning := "Pipeline error" })
     ∧ (∀ v, rIntent = .ok v
      → (NLPPipeline.process rIntent rEntities rSentiment true rQuery).intent = v))
    ∧ ((∀ e, rEntities = .error e
      → (NLPPipeline.process rIntent rEntities rSentiment true rQuery).entities
        = { entities := [] })
     ∧ (∀ v, rEntities = .ok v
      → (NLPPipeline.process rIntent rEntities rSentiment true rQuery).entities = v))
    ∧ ((∀ e, rSentiment = .error e
      → (NLPPipeline.process rIntent rEntities rSentiment true rQuery).sentiment
        = { score := 0, classification := "neutral", emotions := [], urgency := "low" })
     ∧ (∀ v, rSentiment = .ok v
      → (NLPPipeline.process rIntent rEntities rSentiment true rQuery).sentiment = v))
    ∧ ((∀ e, rQuery = .error e
      → (NLPPipeline.process rIntent rEntities rSentiment true rQuery).query = none)
     ∧ (∀ v, rQuery = .ok v
      → (NLPPipeline.process rIntent rEntities rSentiment true rQuery).query = some v)) := by
  refine ⟨⟨?_, ?_⟩, ⟨?_, ?_⟩, ⟨?_, ?_⟩, ⟨?_, ?_⟩⟩ <;>
    · intro x h
      simp [NLPPipeline.process, h]

/-- Witness for C4: with a throwing entity sub-task and a throwing query
parse, the result still carries empty entities and no query while the
successful intent and sentiment come through untouched. -/
theorem c4_nlp_failure_isolation_witness :
    (NLPPipeline.process (.ok ⟨"portfolio_analysis", 0.9, "r"⟩)
        (.error "gateway down") (.ok ⟨0.5, "positive", [], "low"⟩) true
        (.error "parse failure")).entities = { entities := [] }
    ∧ (NLPPipeline.process (.ok ⟨"portfolio_analysis", 0.9, "r"⟩)
        (.error "gateway down") (.ok ⟨0.5, "positive", [], "low"⟩) true
        (.error "parse failure")).intent = ⟨"portfolio_analysis", 0.9, "r"⟩
    ∧ (NLPPipeline.process (.ok ⟨"portfolio_analysis", 0.9, "r"⟩)
        (.error "gateway down") (.ok ⟨0.5, "positive", [], "low"⟩) true
        (.error "parse failure")).sentiment = ⟨0.5, "positive", [], "low"⟩
    ∧ (NLPPipeline.process (.ok ⟨"portfolio_analysis", 0.9, "r"⟩)
        (.error "gateway down") (.ok ⟨0.5, "positive", [], "low"⟩) true
        (.error "parse failure")).query = none := by
  refine ⟨?_, ?_, ?_, ?_⟩
  · exact (c4_nlp_failure_isolation _ _ _ _).2.1.1 "gateway down" rfl
  · exact (c4_nlp_failure_isolation _ _ _ _).1.2 ⟨"portfolio_analysis", 0.9, "r"⟩ rfl
  · exact (c4_nlp_failure_isolation _ _ _ _).2.2.1.2 ⟨0.5, "positive", [], "low"⟩ rfl
  · exact (c4_nlp_failure_isolation _ _ _ _).2.2.2.1 "parse failure" rfl

/-- C9: in the buffered `process`, an intent below the 0.4 confidence
threshold is coerced to the default `general_chat` label before the table
lookup; labels absent from `INTENT_AGENT_MAP` select the default agent; a
0.9-confidence `portfolio_analysis` resolves to `portfolio_intelligence`
and a 0.2-confidence `tax_optimization` resolves to the default agent. -/
theorem c9_intent_selection (ctx : AgentContext) (d : NlpDict)
    (i : IntentDict) (conf : ℚ) :
    (d.intent = some i → i.confidence = some conf → conf < 0.4
      → Orchestrator.process_agent_name ctx (some d)
          = Orchestrator.select_agent "general_chat")
    ∧ (∀ intent, lookupKV INTENT_AGENT_MAP intent = none
        → Orchestrator.select_agent intent = default_agent)
    ∧ Orchestrator.process_agent_name ctx
        (some { intent := some { name := some "portfolio_analysis",
                                 confidence := some 0.9 } })
        = "portfolio_intelligence"
    ∧ Orchestrator.process_agent_name ctx
        (some { intent := some { name := some "tax_optimization",
                                 confidence := some 0.2 } })
        = default_agent := by
  refine ⟨?_, ?_, ?_, ?_⟩
  · intro hi hc hlt
    simp [Orchestrator.process_agent_name, Orchestrator.route_intent, hi, hc, hlt]
  · intro intent h
    simp [Orchestrator.select_agent, h]
  · simp [Orchestrator.process_agent_name, Orchestrator.route_intent,
      Orchestrator.select_agent]
    norm_num
    rfl
  · simp [Orchestrator.process_agent_name, Orchestrator.route_intent,
      Orchestrator.select_agent]
    norm_num
    rfl

/-- Witness for C9: concrete low-confidence coercion and default fallback
for an unmapped label. -/
theorem c9_intent_selection_witness :
    Orchestrator.process_agent_name { user_id := "u", advisor_id := "a" }
        (some { intent := some { name := some "tax_optimization",
                                 confidence := some 0.2 } })
      = Orchestrator.select_agent "general_chat"
    ∧ Orchestrator.select_agent "unknown_intent_label" = default_agent := by
  constructor
  · exact (c9_intent_selection { user_id := "u", advisor_id := "a" }
      { intent := some { name := some "tax_optimization", confidence := some 0.2 } }
      { name := some "tax_optimization", confidence := some 0.2 } 0.2).1
      rfl rfl (by norm_num)
  · exact (c9_intent_selection { user_id := "u", advisor_id := "a" } {} {} 0).2.1
      "unknown_intent_label" rfl

/-- Counterexample to C2 as stated: with a forced-agent override of
`compliance_sentinel` in the context metadata and a high-confidence (0.9)
`portfolio_analysis` classification, the buffered `process` entry point
still resolves the agent by intent-based selection -- it routes to
`portfolio_intelligence`, not to the forced agent -- while `process_stream`
does honor the override.  The full buffered pipeline run confirms the
routed agent. -/
theorem c2_forced_agent_counterexample :
    Orchestrator.process_agent_name
        { user_id := "u", advisor_id := "a",
          metadata := { forced_agent := some "compliance_sentinel" } }
        (some { intent := some { name := some "portfolio_analysis",
                                 confidence := some 0.9 } })
      = "portfolio_intelligence"
    ∧ Orchestrator.process_agent_name
        { user_id := "u", advisor_id := "a",
          metadata := { forced_agent := some "compliance_sentinel" } }
        (some { intent := some { name := some "portfolio_analysis",
                                 confidence := some 0.9 } })
      ≠ "compliance_sentinel"
    ∧ Orchestrator.stream_agent_name
        { user_id := "u", advisor_id := "a",
          metadata := { forced_agent := some "compliance_sentinel" } }
        (some { intent := some { name := some "portfolio_analysis",
                                 confidence := some 0.9 } })
      = "compliance_sentinel"
    ∧ (Orchestrator.process (fun _ _ _ _ => { content := some "t" }) [] 0
        [("portfolio_intelligence", { name := "portfolio_intelligence" }),
         ("compliance_sentinel", { name := "compliance_sentinel" }),
         ("advisor_assistant", { name := "advisor_assistant" })] "msg"
        { user_id := "u", advisor_id := "a",
          metadata := { forced_agent := some "compliance_sentinel" } }
        (some { intent := some { name := some "portfolio_analysis",
                                 confidence := some 0.9 } })).map
        (fun r => r.primary_response.agent_name)
      = .ok "portfolio_intelligence" := by
  have hsel : Orchestrator.process_agent_name
      { user_id := "u", advisor_id := "a",
        metadata := { forced_agent := some "compliance_sentinel" } }
      (some { intent := some { name := some "portfolio_analysis",
                               confidence := some 0.9 } })
      = "portfolio_intelligence" := by
    simp [Orchestrator.process_agent_name, Orchestrator.route_intent,
      Orchestrator.select_agent]
    norm_num
    rfl
  refine ⟨hsel, by rw [hsel]; decide, rfl, ?_⟩
  simp only [Orchestrator.process, Orchestrator.route_intent,
    Orchestrator.select_agent]
  norm_num
  rfl

/-- C2 amended: only the streaming entry point honors the forced-agent
override.  `process_stream` resolves a truthy (non-empty) forced-agent
name verbatim, bypassing intent-based selection; the buffered `process`
always resolves by intent-based selection, and its entire result is
unaffected by whatever forced-agent value the metadata carries. -/
theorem c2_forced_agent_amended (ctx : AgentContext) (nlp : Option NlpDict)
    (fa : String) :
    (ctx.metadata.forced_agent = some fa → fa ≠ ""
      → Orchestrator.stream_agent_name ctx nlp = fa)
    ∧ Orchestrator.process_agent_name ctx nlp
        = Orchestrator.select_agent (Orchestrator.route_intent nlp)
    ∧ (∀ (gw : Gateway) (reg : ToolRegistry) (db : Nat)
        (agents : AgentRegistry) (message : String) (fa' : Option String),
        Orchestrator.process gw reg db agents message
          { ctx with metadata := { ctx.metadata with forced_agent := fa' } } nlp
        = Orchestrator.process gw reg db agents message ctx nlp) := by
  refine ⟨?_, rfl, ?_⟩
  · intro h hne
    simp [Orchestrator.stream_agent_name, h, hne]
  · intro gw reg db agents message fa'
    simp only [Orchestrator.process, Orchestrator.enrich_context,
      BaseAgent.run, build_messages]
    cases nlp <;> rfl

/-- Witness for C2 amended: a forced `compliance_sentinel` override is used
verbatim by the streaming resolution even against a 0.9
`portfolio_analysis` classification, and the buffered `process` result is
identical with and without the override. -/
theorem c2_forced_agent_amended_witness :
    Orchestrator.stream_agent_name
        { user_id := "u", advisor_id := "a",
          metadata := { forced_agent := some "compliance_sentinel" } }
        (some { intent := some { name := some "portfolio_analysis",
                                 confidence := some 0.9 } })
      = "compliance_sentinel"
    ∧ Orchestrator.process (fun _ _ _ _ => { content := some "t" }) [] 0
        [("advisor_assistant", { name := "advisor_assistant" })] "msg"
        { user_id := "u", advisor_id := "a",
          metadata := { forced_agent := some "compliance_sentinel",
                        nlp_result := none, intent := none, entities := none } }
        none
      = Orchestrator.process (fun _ _ _ _ => { content := some "t" }) [] 0
        [("advisor_assistant", { name := "advisor_assistant" })] "msg"
        { user_id := "u", advisor_id := "a",
          metadata := { forced_agent := none, nlp_result := none,
                        intent := none, entities := none } }
        none := by
  constructor
  · exact (c2_forced_agent_amended
      { user_id := "u", advisor_id := "a",
        metadata := { forced_agent := some "compliance_sentinel" } }
      (some { intent := some { name := some "portfolio_analysis",
                               confidence := some 0.9 } })
      "compliance_sentinel").1 rfl (by decide)
  · exact (c2_forced_agent_amended
      { user_id := "u", advisor_id := "a",
        metadata := { forced_agent := none, nlp_result := none,
                      intent := none, entities := none } }
      none "").2.2 (fun _ _ _ _ => { content := some "t" }) [] 0
      [("advisor_assistant", { name := "advisor_assistant" })] "msg"
      (some "compliance_sentinel")

theorem lookupKV_map_json (m : List (String × JVal)) (k : String) :
    lookupKV (m.map fun p => (p.1, ArgVal.json p.2)) k
      = (lookupKV m k).map ArgVal.json := by
  have h := find?_map_key (fun p => (p.1, ArgVal.json p.2)) (fun _ => rfl) m k
  unfold lookupKV
  rw [h, Option.map_map, Option.map_map]
  rfl

/-- C8: dispatching a registered tool with the JSON serialization of any
well-formed key/value argument map -- strings with escapes, integers,
decimal float literals, booleans, null, and nested objects and arrays --
together with extra keyword bindings invokes the bound callable with
exactly the original map (as JSON bindings) merged with the extra
bindings, the extra bindings taking precedence on key collision:
serialize-then-dispatch round-trips the argument map unchanged to the
callable. -/
theorem c8_dispatch_roundtrip (reg : ToolRegistry) (name : String)
    (t : ToolEntry) (m : List (String × JVal))
    (kwargs : List (String × ArgVal))
    (hreg : lookupKV reg name = some t)
    (hm : fieldsWF m = true) :
    execute_tool reg name (.inl (json_dumps (.obj m))) kwargs
      = t.fn (dictMerge (m.map fun p => (p.1, ArgVal.json p.2)) kwargs)
    ∧ (∀ k, lookupKV (dictMerge (m.map fun p => (p.1, ArgVal.json p.2)) kwargs) k
        = (lookupKV kwargs k).orElse
            (fun _ => (lookupKV m k).map ArgVal.json)) := by
  constructor
  · simp [execute_tool, hreg, json_loads_dumps m hm]
  · intro k
    rw [lookupKV_dictMerge, lookupKV_map_json]

/-- Witness for C8: a concrete registry, argument map and keyword binding;
the argument map carries a quote-and-backslash-bearing string, a negative
integer, a decimal float literal (the `create_goal` `target_amount`
scenario), a nested object holding an array of mixed values, and a
colliding "db" key; the callable observes the merged map with the injected
binding winning on the collision and the other entries round-tripped
verbatim. -/
theorem c8_dispatch_roundtrip_witness :
    execute_tool [("get_client", sampleTool)] "get_client"
        (.inl (json_dumps (.obj
          [("client_id", .str "a\"b\\c"),
           ("target_amount", .num false 1500 [5, 0]),
           ("delta", .int (-3)),
           ("meta", .obj [("tags", .arr [.str "x", .int 12, .bool true, .null])]),
           ("db", .str "shadow")])))
        [("db", ArgVal.db 7)]
      = .ok (.obj [("handle", .int 7), ("client", .str "a\"b\\c")]) := by
  rw [(c8_dispatch_roundtrip [("get_client", sampleTool)] "get_client" sampleTool
      [("client_id", .str "a\"b\\c"),
       ("target_amount", .num false 1500 [5, 0]),
       ("delta", .int (-3)),
       ("meta", .obj [("tags", .arr [.str "x", .int 12, .bool true, .null])]),
       ("db", .str "shadow")]
      [("db", ArgVal.db 7)] rfl
      (by simp [fieldsWF, jvalWF, elemsWF])).1]
  rfl

theorem runLoop_exhausted (gw : Gateway) (reg : ToolRegistry) (db : Nat)
    (ag : AgentCfg) (cat : List ToolDef)
    (hgw : ∀ msgs, (gw msgs ag.model (some cat) ag.temperature).tool_calls ≠ []) :
    ∀ fuel round_num msgs made,
      (runLoop gw reg db ag (some cat) fuel round_num msgs made).2.length = fuel + 1
      ∧ (∀ c ∈ (runLoop gw reg db ag (some cat) fuel round_num msgs made).2.take fuel,
          c.tools = some cat)
      ∧ (∃ last,
          (runLoop gw reg db ag (some cat) fuel round_num msgs made).2.getLast?
            = some last
          ∧ last.tools = none
          ∧ last.resp = gw last.messages ag.model none ag.temperature
          ∧ (runLoop gw reg db ag (some cat) fuel round_num msgs made).1.content
              = last.resp.content.getD ""
          ∧ (runLoop gw reg db ag (some cat) fuel round_num msgs made).1.metadata.forced_completion
              = true
          ∧ (runLoop gw reg db ag (some cat) fuel round_num msgs made).1.metadata.rounds
              = ag.max_tool_rounds) := by
  intro fuel
  induction fuel with
  | zero =>
    intro round_num msgs made
    exact ⟨rfl, by simp, ⟨msgs, none, gw msgs ag.model none ag.temperature⟩,
      rfl, rfl, rfl, rfl, rfl, rfl⟩
  | succ n ih =>
    intro round_num msgs made
    have hne : ¬ ((gw msgs ag.model (some cat) ag.temperature).tool_calls.isEmpty = true) := by
      rw [List.isEmpty_iff]
      exact hgw msgs
    have hstep : runLoop gw reg db ag (some cat) (n + 1) round_num msgs made
        = ((runLoop gw reg db ag (some cat) n (round_num + 1)
              (msgs ++ assistant_dump (gw msgs ag.model (some cat) ag.temperature)
                :: (gw msgs ag.model (some cat) ag.temperature).tool_calls.map
                  (tool_result_msg reg db))
              (made ++ (gw msgs ag.model (some cat) ag.temperature).tool_calls.map
                (·.name))).1,
            ⟨msgs, some cat, gw msgs ag.model (some cat) ag.temperature⟩
              :: (runLoop gw reg db ag (some cat) n (round_num + 1)
                (msgs ++ assistant_dump (gw msgs ag.model (some cat) ag.temperature)
                  :: (gw msgs ag.model (some cat) ag.temperature).tool_calls.map
                    (tool_result_msg reg db))
                (made ++ (gw msgs ag.model (some cat) ag.temperature).tool_calls.map
                  (·.name))).2) := by
      simp only [runLoop]
      rw [if_neg hne]
    obtain ⟨ihlen, ihtake, last, ihlast, ihnone, ihresp, ihcontent, ihforced, ihrounds⟩ :=
      ih (round_num + 1)
        (msgs ++ assistant_dump (gw msgs ag.model (some cat) ag.temperature)
          :: (gw msgs ag.model (some cat) ag.temperature).tool_calls.map
            (tool_result_msg reg db))
        (made ++ (gw msgs ag.model (some cat) ag.temperature).tool_calls.map (·.name))
    rw [hstep]
    refine ⟨by simp [ihlen], ?_, last, ?_, ihnone, ihresp, ihcontent, ihforced, ihrounds⟩
    · intro c hc
      rw [List.take_succ_cons] at hc
      rcases List.mem_cons.mp hc with h | h
      · rw [h]
      · exact ihtake c h
    · cases hnx : (runLoop gw reg db ag (some cat) n (round_num + 1)
          (msgs ++ assistant_dump (gw msgs ag.model (some cat) ag.temperature)
            :: (gw msgs ag.model (some cat) ag.temperature).tool_calls.map
              (tool_result_msg reg db))
          (made ++ (gw msgs ag.model (some cat) ag.temperature).tool_calls.map
            (·.name))).2 with
      | nil =>
        rw [hnx] at ihlen
        simp at ihlen
      | cons x xs =>
        rw [hnx] at ihlast
        simp only [List.getLast?_cons_cons]
        exact ihlast

/-- C1: for an agent with a nonempty tool subset and a maximum of `R` tool
rounds, against any gateway behaviour that proposes at least one tool
invocation whenever the catalog is offered, `run` makes exactly `R` gateway
calls offering the resolved tool catalog, then exactly one further call
offering no tool definitions, and returns that final call's text with the
forced-completion flag set and the round count pinned at `R`; it never
executes more than `R` tool-calling rounds before the forced tool-less
call. -/
theorem c1_forced_completion_bound (gw : Gateway) (reg : ToolRegistry)
    (db : Nat) (ag : AgentCfg) (message : String) (ctx : AgentContext)
    (htools : ¬ ag.tool_names.isEmpty = true)
    (hgw : ∀ msgs, (gw msgs ag.model
      (some (get_tool_definitions reg ag.tool_names)) ag.temperature).tool_calls ≠ []) :
    (BaseAgent.run gw reg db ag message ctx).calls.length = ag.max_tool_rounds + 1
    ∧ (∀ c ∈ (BaseAgent.run gw reg db ag message ctx).calls.take ag.max_tool_rounds,
        c.tools = some (get_tool_definitions reg ag.tool_names))
    ∧ (∃ last, (BaseAgent.run gw reg db ag message ctx).calls.getLast? = some last
        ∧ last.tools = none
        ∧ last.resp = gw last.messages ag.model none ag.temperature
        ∧ (BaseAgent.run gw reg db ag message ctx).resp.content
            = last.resp.content.getD ""
        ∧ (BaseAgent.run gw reg db ag message ctx).resp.metadata.forced_completion
            = true
        ∧ (BaseAgent.run gw reg db ag message ctx).resp.metadata.rounds
            = ag.max_tool_rounds) := by
  have hrun : BaseAgent.run gw reg db ag message ctx
      = ⟨(runLoop gw reg db ag (some (get_tool_definitions reg ag.tool_names))
            ag.max_tool_rounds 0 (build_messages ag message ctx) []).1,
         (runLoop gw reg db ag (some (get_tool_definitions reg ag.tool_names))
            ag.max_tool_rounds 0 (build_messages ag message ctx) []).2⟩ := by
    unfold BaseAgent.run
    rw [if_neg htools]
  rw [hrun]
  exact runLoop_exhausted gw reg db ag (get_tool_definitions reg ag.tool_names) hgw
    ag.max_tool_rounds 0 (build_messages ag message ctx) []

/-- Witness for C1, the spec scenario: `maxRounds = 2` against a gateway
that always proposes a tool call; the 3rd gateway call receives no tool
catalog and its text is returned with the forced-completion flag. -/
theorem c1_forced_completion_bound_witness :
    (BaseAgent.run mockToolGateway [("get_client", sampleTool)] 0
        { name := "w", tool_names := ["get_client"], max_tool_rounds := 2 }
        "q" { user_id := "u", advisor_id := "a" }).calls.length = 3
    ∧ (BaseAgent.run mockToolGateway [("get_client", sampleTool)] 0
        { name := "w", tool_names := ["get_client"], max_tool_rounds := 2 }
        "q" { user_id := "u", advisor_id := "a" }).resp.content = "forced answer"
    ∧ (BaseAgent.run mockToolGateway [("get_client", sampleTool)] 0
        { name := "w", tool_names := ["get_client"], max_tool_rounds := 2 }
        "q" { user_id := "u", advisor_id := "a" }).resp.metadata.forced_completion
      = true
    ∧ (BaseAgent.run mockToolGateway [("get_client", sampleTool)] 0
        { name := "w", tool_names := ["get_client"], max_tool_rounds := 2 }
        "q" { user_id := "u", advisor_id := "a" }).resp.metadata.rounds = 2 := by
  obtain ⟨hlen, _htake, last, _hlast, _hnone, hresp, hcontent, hforced, hrounds⟩ :=
    c1_forced_completion_bound mockToolGateway [("get_client", sampleTool)] 0
      { name := "w", tool_names := ["get_client"], max_tool_rounds := 2 } "q"
      { user_id := "u", advisor_id := "a" } (by decide)
      (fun msgs => by simp [mockToolGateway])
  refine ⟨hlen, ?_, hforced, hrounds⟩
  rw [hcontent, hresp]
  rfl

/-- C3: a failing tool dispatch -- including the hard `ValueError` raised
for an unknown tool name -- never propagates out of the loop: the failing
invocation's tool-role message carries the serialized error object, that
message is appended to the transcript alongside one tool-role message per
proposed invocation, and the loop equation shows the round always
continues into the next one with the extended transcript. -/
theorem c3_dispatch_failure_contained (gw : Gateway) (reg : ToolRegistry)
    (db : Nat) (ag : AgentCfg) (tools : Option (List ToolDef))
    (fuel round_num : Nat) (msgs : List ChatMsg) (made : List String)
    (tc : ToolCall) (e : String)
    (hne : (gw msgs ag.model tools ag.temperature).tool_calls ≠ [])
    (hmem : tc ∈ (gw msgs ag.model tools ag.temperature).tool_calls)
    (hfail : execute_tool reg tc.name (.inl tc.arguments) [("db", ArgVal.db db)]
      = .error e) :
    tool_result_msg reg db tc
      = { role := "tool", tool_call_id := some tc.id,
          content := some (json_dumps (.obj [("error", .str e)])) }
    ∧ tool_result_msg reg db tc
        ∈ msgs ++ assistant_dump (gw msgs ag.model tools ag.temperature)
            :: (gw msgs ag.model tools ag.temperature).tool_calls.map
              (tool_result_msg reg db)
    ∧ (∀ name, lookupKV reg name = none
        → execute_tool reg name (.inl tc.arguments) [("db", ArgVal.db db)]
            = .error ("Unknown tool: " ++ name))
    ∧ runLoop gw reg db ag tools (fuel + 1) round_num msgs made
        = ((runLoop gw reg db ag tools fuel (round_num + 1)
              (msgs ++ assistant_dump (gw msgs ag.model tools ag.temperature)
                :: (gw msgs ag.model tools ag.temperature).tool_calls.map
                  (tool_result_msg reg db))
              (made ++ (gw msgs ag.model tools ag.temperature).tool_calls.map
                (·.name))).1,
           ⟨msgs, tools, gw msgs ag.model tools ag.temperature⟩
             :: (runLoop gw reg db ag tools fuel (round_num + 1)
                  (msgs ++ assistant_dump (gw msgs ag.model tools ag.temperature)
                    :: (gw msgs ag.model tools ag.temperature).tool_calls.map
                      (tool_result_msg reg db))
                  (made ++ (gw msgs ag.model tools ag.temperature).tool_calls.map
                    (·.name))).2) := by
  refine ⟨?_, ?_, ?_, ?_⟩
  · simp [tool_result_msg, tool_result_content, hfail]
  · exact List.mem_append_right _ (List.mem_cons_of_mem _
      (List.mem_map_of_mem _ hmem))
  · intro name h
    simp [execute_tool, h]
  · have hne' : ¬ ((gw msgs ag.model tools ag.temperature).tool_calls.isEmpty = true) := by
      rw [List.isEmpty_iff]
      exact hne
    simp only [runLoop]
    rw [if_neg hne']

/-- Witness for C3: dispatching the unknown name `missing_tool` inside a
round yields the serialized error payload (shown both symbolically and as
the literal JSON text) instead of an exception. -/
theorem c3_dispatch_failure_contained_witness :
    tool_result_msg [("get_client", sampleTool)] 0
        { id := "1", name := "missing_tool", arguments := "oops" }
      = { role := "tool", tool_call_id := some "1",
          content := some (json_dumps
            (.obj [("error", .str "Unknown tool: missing_tool")])) }
    ∧ (tool_result_msg [("get_client", sampleTool)] 0
        { id := "1", name := "missing_tool", arguments := "oops" }).content
      = some "\x7b\"error\": \"Unknown tool: missing_tool\"\x7d" := by
  have h := c3_dispatch_failure_contained mockToolGateway
    [("get_client", sampleTool)] 0 { name := "w" } (some []) 0 0 [] []
    { id := "1", name := "missing_tool", arguments := "oops" }
    "Unknown tool: missing_tool"
    (by simp [mockToolGateway])
    (by simp [mockToolGateway])
    rfl
  refine ⟨h.1, ?_⟩
  rw [h.1]
  simp [json_dumps, JVal.render, renderFields, renderField, escapeChars]

theorem fetch_recent_pairwise (db : Store) (cid : Nat)
    (hdist : (convMessages db cid).Pairwise
      (fun a b => a.created_at ≠ b.created_at)) :
    ((convMessages db cid).insertionSort msgDesc).Pairwise
      (fun a b => b.created_at < a.created_at) := by
  have hsorted : ((convMessages db cid).insertionSort msgDesc).Pairwise msgDesc :=
    List.sorted_insertionSort msgDesc (convMessages db cid)
  have hperm := List.perm_insertionSort msgDesc (convMessages db cid)
  have hdist' : ((convMessages db cid).insertionSort msgDesc).Pairwise
      (fun a b => a.created_at ≠ b.created_at) :=
    (hperm.pairwise_iff (fun h => Ne.symm h)).mpr hdist
  exact (hsorted.and hdist').imp
    (fun h => lt_of_le_of_ne h.1 (Ne.symm h.2))

/-- C5: `get_conversation_context` returns the most recent `max_messages`
messages in strictly increasing creation order -- every conversation
message left out is older than every fetched one -- and when at least one
summary exists for the conversation, exactly one synthetic system-role
entry containing the latest summary text is prepended before all fetched
messages (timestamps are assumed pairwise distinct, as SQL ordering on a
tie is unspecified). -/
theorem c5_get_context (db : Store) (cid n : Nat)
    (hdist : (convMessages db cid).Pairwise
      (fun a b => a.created_at ≠ b.created_at)) :
    (fetch_recent db cid n).Pairwise (fun a b => a.created_at < b.created_at)
    ∧ (fetch_recent db cid n).length = min n (convMessages db cid).length
    ∧ (∀ y ∈ convMessages db cid, y ∉ fetch_recent db cid n
        → ∀ x ∈ fetch_recent db cid n, y.created_at < x.created_at)
    ∧ (∀ s, get_latest_summary db cid = some s
        → get_conversation_context db cid n
            = { role := "system",
                content := "[Conversation summary up to this point: " ++ s ++ "]" }
              :: (fetch_recent db cid n).map
                  (fun m => { role := m.role, content := m.content }))
    ∧ (get_latest_summary db cid = none
        → get_conversation_context db cid n
            = (fetch_recent db cid n).map
                (fun m => ({ role := m.role, content := m.content } : CtxEntry)))
    ∧ (∀ s, get_latest_summary db cid = some s
        → ∃ r ∈ db.summaries.filter (fun t => t.conversation_id == cid),
            r.summary = s
            ∧ ∀ other ∈ db.summaries.filter (fun t => t.conversation_id == cid),
                other.created_at ≤ r.created_at) := by
  have hcombined := fetch_recent_pairwise db cid hdist
  have hperm := List.perm_insertionSort msgDesc (convMessages db cid)
  refine ⟨?_, ?_, ?_, ?_, ?_, ?_⟩
  · rw [fetch_recent, List.pairwise_reverse]
    exact hcombined.sublist (List.take_sublist _ _)
  · rw [fetch_recent, List.length_reverse, List.length_take, hperm.length_eq]
  · intro y hy hynot x hx
    rw [fetch_recent, List.mem_reverse] at hynot hx
    have hy' : y ∈ (convMessages db cid).insertionSort msgDesc :=
      hperm.mem_iff.mpr hy
    rw [← List.take_append_drop n ((convMessages db cid).insertionSort msgDesc)]
      at hy'
    have hydrop : y ∈ ((convMessages db cid).insertionSort msgDesc).drop n := by
      rcases List.mem_append.mp hy' with h | h
      · exact absurd h hynot
      · exact h
    have hsplit : List.Pairwise (fun a b => b.created_at < a.created_at)
        ((((convMessages db cid).insertionSort msgDesc).take n)
          ++ (((convMessages db cid).insertionSort msgDesc).drop n)) := by
      rw [List.take_append_drop]
      exact hcombined
    exact (List.pairwise_append.mp hsplit).2.2 x hx y hydrop
  · intro s hs
    unfold get_conversation_context
    rw [hs]
  · intro hs
    unfold get_conversation_context
    rw [hs]
  · intro s hs
    unfold get_latest_summary at hs
    cases hsort : (db.summaries.filter
        (fun t => t.conversation_id == cid)).insertionSort sumDesc with
    | nil => rw [hsort] at hs; simp at hs
    | cons r rest =>
      rw [hsort] at hs
      simp only [List.take_succ_cons, List.take_zero, List.head?_cons,
        Option.map_some', Option.some.injEq] at hs
      have hsorted : ((db.summaries.filter
          (fun t => t.conversation_id == cid)).insertionSort sumDesc).Pairwise
            sumDesc :=
        List.sorted_insertionSort sumDesc _
      have hpermS := List.perm_insertionSort sumDesc
        (db.summaries.filter (fun t => t.conversation_id == cid))
      refine ⟨r, ?_, hs, ?_⟩
      · exact hpermS.mem_iff.mp (by rw [hsort]; exact List.mem_cons_self ..)
      · intro other hother
        have hother' : other ∈ r :: rest := by
          rw [← hsort]
          exact hpermS.mem_iff.mpr hother
        rcases List.mem_cons.mp hother' with h | h
        · rw [h]
        · rw [hsort] at hsorted
          exact List.rel_of_sorted_cons hsorted other h

/-- Witness for C5: with a window of 2, the context is the latest summary's
synthetic system entry followed by the two most recent messages of the
conversation in chronological order. -/
theorem c5_get_context_witness :
    get_conversation_context c5db 0 2
      = [{ role := "system",
           content := "[Conversation summary up to this point: new sum]" },
         { role := "assistant", content := "b" },
         { role := "user", content := "c" }] := by
  have h := c5_get_context c5db 0 2 (by decide)
  rw [h.2.2.2.1 "new sum" (by decide)]
  decide

/-- C7 diverges from the code: the fetch of `summarize_conversation` is not
restricted to messages uncovered by prior summaries (despite the source
comment "Get all messages not yet summarized", and with the
`messages_summarized` column never populated).  After summarizing a
three-message conversation once, a second invocation fetches exactly the
same three already-summarized messages and persists a second summary over
them, instead of having nothing left to summarize; the empty-conversation
path (return "" and persist nothing) does hold. -/
theorem c7_summarize_refetches_summarized :
    (summarize_conversation (fun _ => "SUMMARY") c7db 0 10).2.summaries
      = [⟨0, "SUMMARY", 10⟩]
    ∧ summarize_fetch (summarize_conversation (fun _ => "SUMMARY") c7db 0 10).2 0
      = summarize_fetch c7db 0
    ∧ summarize_fetch c7db 0 ≠ []
    ∧ (summarize_conversation (fun _ => "SUMMARY")
        (summarize_conversation (fun _ => "SUMMARY") c7db 0 10).2 0 11).1
      = "SUMMARY"
    ∧ (summarize_conversation (fun _ => "SUMMARY")
        (summarize_conversation (fun _ => "SUMMARY") c7db 0 10).2 0 11).2.summaries
      = [⟨0, "SUMMARY", 10⟩, ⟨0, "SUMMARY", 11⟩]
    ∧ summarize_conversation (fun _ => "SUMMARY") ⟨[], []⟩ 0 5 = ("", ⟨[], []⟩) := by
  refine ⟨?_, ?_, ?_, ?_, ?_, ?_⟩ <;> decide
